import Mathlib

/-!
# cscoin-miner: the challenge solver (`cscoin-solver.c`)

A shallow embedding of `cscoin-solver.c` and the properties proved about it.

Conventions of the embedding

* C strings and buffers are lists of byte values (`List Nat`, each below 256);
  `cstr "0000"` is the byte list of a literal.
* Machine integers are `Nat` / `Int` with the wrap-around written out
  (`% 2 ^ 32` for `guint`, `% 2 ^ 64` for `guint64`, `% 2 ^ 16` for `guint16`).
* The target is the usual LP64 little-endian host (x86-64): `unsigned long` has
  64 bits, a native load reads the lowest byte first, `GUINT16_FROM_LE` and
  `GUINT64_FROM_LE` are the identity and `GUINT16_FROM_BE` swaps the two bytes.
* The digest primitive (OpenSSL SHA-256) and the generator (`cscoin-mt64.c`) are
  not part of the file under study; they are parameters `H` and `M`.
* The OpenMP parallel region is a set of workers advanced by an explicit
  schedule (a list of events), so every interleaving is a value.
-/

namespace CSCoin

/-! ## C library pieces used by the solver -/

/-- Bytes of a string literal. -/
def cstr (s : String) : List Nat := s.toList.map Char.toNat

/-- The conversion loop of the `printf` family for an unsigned decimal,
`do *--p = '0' + v % 10; while ((v /= 10) != 0);`, run for at most `fuel`
digits. -/
def utoa_loop : Nat → Nat → List Nat → List Nat
  | 0, _, buf => buf
  | fuel + 1, v, buf =>
    if v / 10 = 0 then (48 + v % 10) :: buf
    else utoa_loop fuel (v / 10) ((48 + v % 10) :: buf)

/-- Text produced by the conversion `%u` (`bits = 32`) or `%lu` (`bits = 64`)
for the argument `v`: the argument is an unsigned integer of `bits` bits and
the work buffer of the conversion holds `bits` digits. -/
def fmt_unsigned (bits v : Nat) : List Nat := utoa_loop bits (v % 2 ^ bits) []

/-- Buffer contents after `g_snprintf (buf, size, fmt, v)` for a single
unsigned conversion: at most `size - 1` bytes of the text, then the
terminating zero byte. -/
def g_snprintf (size bits v : Nat) : List Nat :=
  (fmt_unsigned bits v).take (size - 1) ++ [0]

/-- C `strlen`: the number of bytes before the first zero byte. -/
def strlen (s : List Nat) : Nat := (s.takeWhile (fun b => b != 0)).length

/-- C `isspace` in the C locale. -/
def isspace (c : Nat) : Bool := c == 32 || (9 ≤ c && c ≤ 13)

/-- Value of a byte as a base-16 digit, if it is one. -/
def hex_digit_value (c : Nat) : Option Nat :=
  if 48 ≤ c ∧ c ≤ 57 then some (c - 48)
  else if 97 ≤ c ∧ c ≤ 102 then some (c - 87)
  else if 65 ≤ c ∧ c ≤ 70 then some (c - 55)
  else none

/-- Digit accumulation of `strtol` in base 16: consumes the longest run of
hexadecimal digits and stops at the first other byte. -/
def strtol_accum : Nat → List Nat → Nat
  | acc, [] => acc
  | acc, c :: cs =>
    match hex_digit_value c with
    | some d => strtol_accum (16 * acc + d) cs
    | none => acc

/-- C `strtol (s, NULL, 16)` with a 64-bit `long`: leading white space, an
optional sign, an optional `0x` / `0X` that is followed by a digit, then the
digits; no digit at all gives 0, and a value out of range is clamped to
`LONG_MAX` / `LONG_MIN`. -/
def strtol16 (s : List Nat) : Int :=
  let s1 := s.dropWhile isspace
  let neg := s1.head? == some 45
  let s2 := if s1.head? == some 45 || s1.head? == some 43 then s1.tail else s1
  let s3 :=
    match s2 with
    | 48 :: x :: d :: r =>
      if (x == 120 || x == 88) && (hex_digit_value d).isSome then d :: r else s2
    | _ => s2
  let v : Int := strtol_accum 0 s3
  if neg then (if v > 2 ^ 63 then -(2 ^ 63) else -v)
  else (if v > 2 ^ 63 - 1 then 2 ^ 63 - 1 else v)

/-- Conversion of a `long` to `guint16`. -/
def to_guint16 (v : Int) : Nat := (v % 65536).toNat

/-- GLib `GUINT16_SWAP_LE_BE` on a 16-bit value. -/
def GUINT16_SWAP_LE_BE (v : Nat) : Nat := ((v >>> 8) ||| (v <<< 8)) % 65536

/-- GLib `GUINT16_FROM_BE` on the little-endian host: a byte swap. -/
def GUINT16_FROM_BE (v : Nat) : Nat := GUINT16_SWAP_LE_BE v

/-- GLib `GUINT16_FROM_LE` on the little-endian host. -/
def GUINT16_FROM_LE (v : Nat) : Nat := v

/-- GLib `GUINT64_FROM_LE` on the little-endian host. -/
def GUINT64_FROM_LE (v : Nat) : Nat := v

/-- Native load of an unsigned integer from the given bytes on the
little-endian host: the first byte is the least significant. -/
def load_native : List Nat → Nat
  | [] => 0
  | b :: bs => b + 256 * load_native bs

/-- Comparator-driven insertion of one element, the inner step of `qsort`. -/
def qsort_insert (cmp : Nat → Nat → Int) (x : Nat) : List Nat → List Nat
  | [] => [x]
  | y :: ys => if cmp x y ≤ 0 then x :: y :: ys else y :: qsort_insert cmp x ys

/-- C `qsort` on an array of `guint64`. The C library leaves the algorithm
open; the model is an insertion sort that, like every `qsort`, looks at the
elements only through the comparator `cmp`. -/
def qsort (cmp : Nat → Nat → Int) (numbers : List Nat) : List Nat :=
  numbers.foldr (qsort_insert cmp) []

/-! ## The digest primitive and the generator (parameters) -/

/-- Streaming context of the digest: the bytes absorbed so far. -/
abbrev SHA256_CTX := List Nat

/-- `SHA256_Init`. -/
def SHA256_Init : SHA256_CTX := []

/-- `SHA256_Update (ctx, data, len)`: absorb the first `len` bytes of `data`. -/
def SHA256_Update (ctx : SHA256_CTX) (data : List Nat) (len : Nat) : SHA256_CTX :=
  ctx ++ data.take len

/-- `SHA256_Final (digest, ctx)`: the 32 bytes written to `digest`, for the
digest function `H`. Whatever `H` returns is stored as 32 `guint8`. -/
def SHA256_Final (H : List Nat → List Nat) (ctx : SHA256_CTX) : List Nat :=
  (List.range 32).map (fun k => (H ctx).getD k 0 % 256)

/-- Modelled from the spec: `cscoin-mt64.c` (`cscoin_mt64_init`,
`cscoin_mt64_set_seed`, `cscoin_mt64_next_uint64`) is missing from the sources
at hand; the generator is a parameter with state type `σ`. -/
structure CSCoinMT64Ops (σ : Type) where
  /-- State after `cscoin_mt64_init`. -/
  init : σ
  /-- State after `cscoin_mt64_set_seed (mt64, seed)`. -/
  set_seed : σ → Nat → σ
  /-- Value returned by `cscoin_mt64_next_uint64 (mt64)` and the state after it. -/
  next_uint64 : σ → Nat × σ

/-! ## Comparators and list generators -/

/-- `guint64cmp_asc`. -/
def guint64cmp_asc (a b : Nat) : Int := if a < b then -1 else 1

/-- `guint64cmp_desc`. -/
def guint64cmp_desc (a b : Nat) : Int := if a > b then -1 else 1

/-- First loop of both list generators:
`for (i = 0; i < nb_elements; i++) numbers[i] = cscoin_mt64_next_uint64 (mt64);`
with `remaining` iterations left, the next index `i`, and the array so far. -/
def fill_numbers {σ : Type} (M : CSCoinMT64Ops σ) :
    Nat → Nat → σ → List Nat → List Nat × σ
  | 0, _, mt64, numbers => (numbers, mt64)
  | remaining + 1, i, mt64, numbers =>
    fill_numbers M remaining (i + 1) (M.next_uint64 mt64).2
      (numbers.set i ((M.next_uint64 mt64).1 % 2 ^ 64))

/-- Second loop of both list generators:
`g_snprintf (number_str, 32, "%lu", numbers[i]);`
`SHA256_Update (checksum, number_str, strlen (number_str));` for each element. -/
def feed_numbers (checksum : SHA256_CTX) : List Nat → SHA256_CTX
  | [] => checksum
  | x :: xs =>
    feed_numbers
      (SHA256_Update checksum (g_snprintf 32 64 x) (strlen (g_snprintf 32 64 x))) xs

/-- The array `numbers` of `solve_sorted_list_challenge` after `qsort`. -/
def sorted_list_numbers {σ : Type} (M : CSCoinMT64Ops σ) (mt64 : σ)
    (nb_elements : Int) : List Nat :=
  qsort guint64cmp_asc
    (fill_numbers M nb_elements.toNat 0 mt64 (List.replicate nb_elements.toNat 0)).1

/-- The array `numbers` of `solve_reverse_sorted_list_challenge` after `qsort`. -/
def reverse_sorted_list_numbers {σ : Type} (M : CSCoinMT64Ops σ) (mt64 : σ)
    (nb_elements : Int) : List Nat :=
  qsort guint64cmp_desc
    (fill_numbers M nb_elements.toNat 0 mt64 (List.replicate nb_elements.toNat 0)).1

/-- `solve_sorted_list_challenge`: the generator state and the digest context
after the call. -/
def solve_sorted_list_challenge {σ : Type} (M : CSCoinMT64Ops σ) (mt64 : σ)
    (checksum : SHA256_CTX) (nb_elements : Int) : σ × SHA256_CTX :=
  ((fill_numbers M nb_elements.toNat 0 mt64 (List.replicate nb_elements.toNat 0)).2,
   feed_numbers checksum (sorted_list_numbers M mt64 nb_elements))

/-- `solve_reverse_sorted_list_challenge`: the generator state and the digest
context after the call. -/
def solve_reverse_sorted_list_challenge {σ : Type} (M : CSCoinMT64Ops σ) (mt64 : σ)
    (checksum : SHA256_CTX) (nb_elements : Int) : σ × SHA256_CTX :=
  ((fill_numbers M nb_elements.toNat 0 mt64 (List.replicate nb_elements.toNat 0)).2,
   feed_numbers checksum (reverse_sorted_list_numbers M mt64 nb_elements))

/-! ## Shortest path: tiles and the cost table -/

/-- `CSCoinShortestPathTileType`. -/
def CSCOIN_SHORTEST_PATH_TILE_TYPE_BLANK : Nat := 0
/-- `CSCoinShortestPathTileType`. -/
def CSCOIN_SHORTEST_PATH_TILE_TYPE_ENTRY : Nat := 1
/-- `CSCoinShortestPathTileType`. -/
def CSCOIN_SHORTEST_PATH_TILE_TYPE_EXIT : Nat := 2
/-- `CSCoinShortestPathTileType`. -/
def CSCOIN_SHORTEST_PATH_TILE_TYPE_FRONTIER : Nat := 3

/-- `cscoin_shortest_path_build_tile`: `a | b << 2 | c << 4 | d << 6`, returned
as a `guint8`. -/
def cscoin_shortest_path_build_tile (a b c d : Nat) : Nat :=
  (a ||| b <<< 2 ||| c <<< 4 ||| d <<< 6) % 256

/-- `CSCoinShortestPathDirection`. -/
def CSCOIN_SHORTEST_PATH_DIRECTION_UP_LEFT : Nat := 0

/-- `CSCOIN_SHORTEST_PATH_TILE_COST_PER_DIRECTION[256][8]`, row by row. -/
def CSCOIN_SHORTEST_PATH_TILE_COST_PER_DIRECTION : List (List Nat) := [
  [0, 0, 0, 0, 0, 0, 0, 0], [0, 0, 0, 0, 0, 0, 0, 0], [2, 3, 3, 2, 2, 1, 1, 2], [0, 0, 0, 0, 0, 0, 0, 0],
  [0, 0, 0, 0, 0, 0, 0, 0], [0, 0, 0, 0, 0, 0, 0, 0], [0, 0, 0, 0, 0, 0, 0, 0], [0, 0, 0, 0, 0, 0, 0, 0],
  [0, 0, 0, 0, 0, 0, 0, 0], [0, 0, 0, 0, 0, 0, 0, 0], [0, 0, 0, 0, 0, 0, 0, 0], [0, 0, 0, 0, 0, 0, 0, 0],
  [0, 0, 0, 0, 0, 0, 0, 0], [0, 0, 0, 0, 0, 0, 0, 0], [0, 0, 0, 0, 0, 0, 0, 0], [0, 0, 0, 0, 0, 0, 0, 0],
  [0, 0, 0, 0, 0, 0, 0, 0], [0, 0, 0, 0, 0, 0, 0, 0], [0, 0, 0, 0, 0, 0, 0, 0], [0, 0, 0, 0, 0, 0, 0, 0],
  [0, 0, 0, 0, 0, 0, 0, 0], [0, 0, 0, 0, 0, 0, 0, 0], [0, 0, 0, 0, 0, 0, 0, 0], [0, 0, 0, 0, 0, 0, 0, 0],
  [0, 0, 0, 0, 0, 0, 0, 0], [0, 0, 0, 0, 0, 0, 0, 0], [0, 0, 0, 0, 0, 0, 0, 0], [0, 0, 0, 0, 0, 0, 0, 0],
  [0, 0, 0, 0, 0, 0, 0, 0], [0, 0, 0, 0, 0, 0, 0, 0], [0, 0, 0, 0, 0, 0, 0, 0], [0, 0, 0, 0, 0, 0, 0, 0],
  [0, 0, 0, 0, 0, 0, 0, 0], [0, 0, 0, 0, 0, 0, 0, 0], [0, 0, 0, 0, 0, 0, 0, 0], [0, 0, 0, 0, 0, 0, 0, 0],
  [0, 0, 0, 0, 0, 0, 0, 0], [0, 0, 0, 0, 0, 0, 0, 0], [0, 0, 0, 0, 0, 0, 0, 0], [0, 0, 0, 0, 0, 0, 0, 0],
  [0, 0, 0, 0, 0, 0, 0, 0], [0, 0, 0, 0, 0, 0, 0, 0], [0, 0, 0, 0, 0, 0, 0, 0], [0, 0, 0, 0, 0, 0, 0, 0],
  [0, 0, 0, 0, 0, 0, 0, 0], [0, 0, 0, 0, 0, 0, 0, 0], [0, 0, 0, 0, 0, 0, 0, 0], [0, 0, 0, 0, 0, 0, 0, 0],
  [0, 0, 0, 0, 0, 0, 0, 0], [0, 0, 0, 0, 0, 0, 0, 0], [0, 0, 0, 0, 0, 0, 0, 0], [0, 0, 0, 0, 0, 0, 0, 0],
  [0, 0, 0, 0, 0, 0, 0, 0], [0, 0, 0, 0, 0, 0, 0, 0], [0, 0, 0, 0, 0, 0, 0, 0], [0, 0, 0, 0, 0, 0, 0, 0],
  [0, 0, 0, 0, 0, 0, 0, 0], [0, 0, 0, 0, 0, 0, 0, 0], [0, 0, 0, 0, 0, 0, 0, 0], [0, 0, 0, 0, 0, 0, 0, 0],
  [0, 0, 0, 0, 0, 0, 0, 0], [0, 0, 0, 0, 0, 0, 0, 0], [0, 0, 0, 0, 0, 0, 0, 0], [0, 0, 0, 0, 0, 0, 0, 0],
  [0, 0, 0, 0, 0, 0, 0, 0], [0, 0, 0, 0, 0, 0, 0, 0], [0, 0, 0, 0, 0, 0, 0, 0], [0, 0, 0, 0, 0, 0, 0, 0],
  [0, 0, 0, 0, 0, 0, 0, 0], [0, 0, 0, 0, 0, 0, 0, 0], [0, 0, 0, 0, 0, 0, 0, 0], [0, 0, 0, 0, 0, 0, 0, 0],
  [0, 0, 0, 0, 0, 0, 0, 0], [0, 0, 0, 0, 0, 0, 0, 0], [0, 0, 0, 0, 0, 0, 0, 0], [0, 0, 0, 0, 0, 0, 0, 0],
  [0, 0, 0, 0, 0, 0, 0, 0], [0, 0, 0, 0, 0, 0, 0, 0], [0, 0, 0, 0, 0, 0, 0, 0], [0, 0, 0, 0, 0, 0, 0, 0],
  [0, 0, 0, 0, 0, 0, 0, 0], [0, 0, 0, 0, 0, 0, 0, 0], [0, 0, 0, 0, 0, 0, 0, 0], [0, 0, 0, 0, 0, 0, 0, 0],
  [0, 0, 0, 0, 0, 0, 0, 0], [0, 0, 0, 0, 0, 0, 0, 0], [0, 0, 0, 0, 0, 0, 0, 0], [0, 0, 0, 0, 0, 0, 0, 0],
  [0, 0, 0, 0, 0, 0, 0, 0], [0, 0, 0, 0, 0, 0, 0, 0], [0, 0, 0, 0, 0, 0, 0, 0], [0, 0, 0, 0, 0, 0, 0, 0],
  [0, 0, 0, 0, 0, 0, 0, 0], [0, 0, 0, 0, 0, 0, 0, 0], [0, 0, 0, 0, 0, 0, 0, 0], [0, 0, 0, 0, 0, 0, 0, 0],
  [0, 0, 0, 0, 0, 0, 0, 0], [0, 0, 0, 0, 0, 0, 0, 0], [0, 0, 0, 0, 0, 0, 0, 0], [0, 0, 0, 0, 0, 0, 0, 0],
  [0, 0, 0, 0, 0, 0, 0, 0], [0, 0, 0, 0, 0, 0, 0, 0], [0, 0, 0, 0, 0, 0, 0, 0], [0, 0, 0, 0, 0, 0, 0, 0],
  [0, 0, 0, 0, 0, 0, 0, 0], [0, 0, 0, 0, 0, 0, 0, 0], [0, 0, 0, 0, 0, 0, 0, 0], [0, 0, 0, 0, 0, 0, 0, 0],
  [0, 0, 0, 0, 0, 0, 0, 0], [0, 0, 0, 0, 0, 0, 0, 0], [0, 0, 0, 0, 0, 0, 0, 0], [0, 0, 0, 0, 0, 0, 0, 0],
  [0, 0, 0, 0, 0, 0, 0, 0], [0, 0, 0, 0, 0, 0, 0, 0], [0, 0, 0, 0, 0, 0, 0, 0], [0, 0, 0, 0, 0, 0, 0, 0],
  [0, 0, 0, 0, 0, 0, 0, 0], [0, 0, 0, 0, 0, 0, 0, 0], [0, 0, 0, 0, 0, 0, 0, 0], [0, 0, 0, 0, 0, 0, 0, 0],
  [0, 0, 0, 0, 0, 0, 0, 0], [0, 0, 0, 0, 0, 0, 0, 0], [0, 0, 0, 0, 0, 0, 0, 0], [0, 0, 0, 0, 0, 0, 0, 0],
  [0, 0, 0, 0, 0, 0, 0, 0], [0, 0, 0, 0, 0, 0, 0, 0], [0, 0, 0, 0, 0, 0, 0, 0], [0, 0, 0, 0, 0, 0, 0, 0],
  [0, 0, 0, 0, 0, 0, 0, 0], [0, 0, 0, 0, 0, 0, 0, 0], [0, 0, 0, 0, 0, 0, 0, 0], [0, 0, 0, 0, 0, 0, 0, 0],
  [0, 0, 0, 0, 0, 0, 0, 0], [0, 0, 0, 0, 0, 0, 0, 0], [0, 0, 0, 0, 0, 0, 0, 0], [0, 0, 0, 0, 0, 0, 0, 0],
  [0, 0, 0, 0, 0, 0, 0, 0], [0, 0, 0, 0, 0, 0, 0, 0], [0, 0, 0, 0, 0, 0, 0, 0], [0, 0, 0, 0, 0, 0, 0, 0],
  [0, 0, 0, 0, 0, 0, 0, 0], [0, 0, 0, 0, 0, 0, 0, 0], [0, 0, 0, 0, 0, 0, 0, 0], [0, 0, 0, 0, 0, 0, 0, 0],
  [0, 0, 0, 0, 0, 0, 0, 0], [0, 0, 0, 0, 0, 0, 0, 0], [0, 0, 0, 0, 0, 0, 0, 0], [0, 0, 0, 0, 0, 0, 0, 0],
  [0, 0, 0, 0, 0, 0, 0, 0], [0, 0, 0, 0, 0, 0, 0, 0], [0, 0, 0, 0, 0, 0, 0, 0], [0, 0, 0, 0, 0, 0, 0, 0],
  [0, 0, 0, 0, 0, 0, 0, 0], [0, 0, 0, 0, 0, 0, 0, 0], [0, 0, 0, 0, 0, 0, 0, 0], [0, 0, 0, 0, 0, 0, 0, 0],
  [0, 0, 0, 0, 0, 0, 0, 0], [0, 0, 0, 0, 0, 0, 0, 0], [0, 0, 0, 0, 0, 0, 0, 0], [0, 0, 0, 0, 0, 0, 0, 0],
  [0, 0, 0, 0, 0, 0, 0, 0], [0, 0, 0, 0, 0, 0, 0, 0], [0, 0, 0, 0, 0, 0, 0, 0], [0, 0, 0, 0, 0, 0, 0, 0],
  [0, 0, 0, 0, 0, 0, 0, 0], [0, 0, 0, 0, 0, 0, 0, 0], [0, 0, 0, 0, 0, 0, 0, 0], [0, 0, 0, 0, 0, 0, 0, 0],
  [0, 0, 0, 0, 0, 0, 0, 0], [0, 0, 0, 0, 0, 0, 0, 0], [0, 0, 0, 0, 0, 0, 0, 0], [0, 0, 0, 0, 0, 0, 0, 0],
  [0, 0, 0, 0, 0, 0, 0, 0], [0, 0, 0, 0, 0, 0, 0, 0], [0, 0, 0, 0, 0, 0, 0, 0], [0, 0, 0, 0, 0, 0, 0, 0],
  [0, 0, 0, 0, 0, 0, 0, 0], [0, 0, 0, 0, 0, 0, 0, 0], [0, 0, 0, 0, 0, 0, 0, 0], [0, 0, 0, 0, 0, 0, 0, 0],
  [0, 0, 0, 0, 0, 0, 0, 0], [0, 0, 0, 0, 0, 0, 0, 0], [0, 0, 0, 0, 0, 0, 0, 0], [0, 0, 0, 0, 0, 0, 0, 0],
  [0, 0, 0, 0, 0, 0, 0, 0], [0, 0, 0, 0, 0, 0, 0, 0], [0, 0, 0, 0, 0, 0, 0, 0], [0, 0, 0, 0, 0, 0, 0, 0],
  [0, 0, 0, 0, 0, 0, 0, 0], [0, 0, 0, 0, 0, 0, 0, 0], [0, 0, 0, 0, 0, 0, 0, 0], [0, 0, 0, 0, 0, 0, 0, 0],
  [0, 0, 0, 0, 0, 0, 0, 0], [0, 0, 0, 0, 0, 0, 0, 0], [0, 0, 0, 0, 0, 0, 0, 0], [0, 0, 0, 0, 0, 0, 0, 0],
  [0, 0, 0, 0, 0, 0, 0, 0], [0, 0, 0, 0, 0, 0, 0, 0], [0, 0, 0, 0, 0, 0, 0, 0], [0, 0, 0, 0, 0, 0, 0, 0],
  [0, 0, 0, 0, 0, 0, 0, 0], [0, 0, 0, 0, 0, 0, 0, 0], [0, 0, 0, 0, 0, 0, 0, 0], [0, 0, 0, 0, 0, 0, 0, 0],
  [0, 0, 0, 0, 0, 0, 0, 0], [0, 0, 0, 0, 0, 0, 0, 0], [0, 0, 0, 0, 0, 0, 0, 0], [0, 0, 0, 0, 0, 0, 0, 0],
  [0, 0, 0, 0, 0, 0, 0, 0], [0, 0, 0, 0, 0, 0, 0, 0], [0, 0, 0, 0, 0, 0, 0, 0], [0, 0, 0, 0, 0, 0, 0, 0],
  [0, 0, 0, 0, 0, 0, 0, 0], [0, 0, 0, 0, 0, 0, 0, 0], [0, 0, 0, 0, 0, 0, 0, 0], [0, 0, 0, 0, 0, 0, 0, 0],
  [0, 0, 0, 0, 0, 0, 0, 0], [0, 0, 0, 0, 0, 0, 0, 0], [0, 0, 0, 0, 0, 0, 0, 0], [0, 0, 0, 0, 0, 0, 0, 0],
  [0, 0, 0, 0, 0, 0, 0, 0], [0, 0, 0, 0, 0, 0, 0, 0], [0, 0, 0, 0, 0, 0, 0, 0], [0, 0, 0, 0, 0, 0, 0, 0],
  [0, 0, 0, 0, 0, 0, 0, 0], [0, 0, 0, 0, 0, 0, 0, 0], [0, 0, 0, 0, 0, 0, 0, 0], [0, 0, 0, 0, 0, 0, 0, 0],
  [0, 0, 0, 0, 0, 0, 0, 0], [0, 0, 0, 0, 0, 0, 0, 0], [0, 0, 0, 0, 0, 0, 0, 0], [0, 0, 0, 0, 0, 0, 0, 0],
  [0, 0, 0, 0, 0, 0, 0, 0], [0, 0, 0, 0, 0, 0, 0, 0], [0, 0, 0, 0, 0, 0, 0, 0], [0, 0, 0, 0, 0, 0, 0, 0],
  [0, 0, 0, 0, 0, 0, 0, 0], [0, 0, 0, 0, 0, 0, 0, 0], [0, 0, 0, 0, 0, 0, 0, 0], [0, 0, 0, 0, 0, 0, 0, 0],
  [0, 0, 0, 0, 0, 0, 0, 0], [0, 0, 0, 0, 0, 0, 0, 0], [0, 0, 0, 0, 0, 0, 0, 0], [0, 0, 0, 0, 0, 0, 0, 0],
  [0, 0, 0, 0, 0, 0, 0, 0], [0, 0, 0, 0, 0, 0, 0, 0], [0, 0, 0, 0, 0, 0, 0, 0], [0, 0, 0, 0, 0, 0, 0, 0],
  [0, 0, 0, 0, 0, 0, 0, 0], [0, 0, 0, 0, 0, 0, 0, 0], [0, 0, 0, 0, 0, 0, 0, 0], [0, 0, 0, 0, 0, 0, 0, 0],
  [0, 0, 0, 0, 0, 0, 0, 0], [0, 0, 0, 0, 0, 0, 0, 0], [0, 0, 0, 0, 0, 0, 0, 0], [0, 0, 0, 0, 0, 0, 0, 0]
  ]

/-- `solve_shortest_path_challenge`: reads one entry of the cost table into the
local `cost` and returns; the generator and the digest context are untouched. -/
def solve_shortest_path_challenge {σ : Type} (_M : CSCoinMT64Ops σ) (mt64 : σ)
    (checksum : SHA256_CTX) (_grid_size _nb_blockers : Int) : σ × SHA256_CTX :=
  let _cost :=
    (CSCOIN_SHORTEST_PATH_TILE_COST_PER_DIRECTION.getD
      (cscoin_shortest_path_build_tile CSCOIN_SHORTEST_PATH_TILE_TYPE_BLANK
        CSCOIN_SHORTEST_PATH_TILE_TYPE_BLANK CSCOIN_SHORTEST_PATH_TILE_TYPE_BLANK
        CSCOIN_SHORTEST_PATH_TILE_TYPE_EXIT) []).getD
      CSCOIN_SHORTEST_PATH_DIRECTION_UP_LEFT 0
  (mt64, checksum)

/-! ## The solver: inputs, per-nonce pipeline, workers -/

/-- Modelled from the spec: `cscoin-solver.h` is missing from the sources at
hand. `CSCoinChallengeType` has the three enumerators the solver dispatches
on; `UNKNOWN value` stands for any other value of the C enumeration type. -/
inductive CSCoinChallengeType
  | SORTED_LIST
  | REVERSE_SORTED_LIST
  | SHORTEST_PATH
  | UNKNOWN (value : Int)
  deriving DecidableEq

/-- Modelled from the spec: `cscoin-solver.h` is missing from the sources at
hand. `CSCoinChallengeParameters`, as the four members the solver reads:
`sorted_list.nb_elements`, `reverse_sorted_list.nb_elements`,
`shortest_path.grid_size`, `shortest_path.nb_blockers`. -/
structure CSCoinChallengeParameters where
  sorted_list_nb_elements : Int
  reverse_sorted_list_nb_elements : Int
  shortest_path_grid_size : Int
  shortest_path_nb_blockers : Int
  deriving DecidableEq

/-- `G_MAXUINT`. -/
def G_MAXUINT : Nat := 2 ^ 32 - 1

/-- `hash_prefix_num = GUINT16_FROM_BE (strtol (hash_prefix, NULL, 16))`. -/
def hash_prefix_num ( hash_prefix : List Nat) : Nat :=
  GUINT16_FROM_BE (to_guint16 (strtol16 hash_prefix))

/-- `g_strdup`: a copy of the string up to its terminator. -/
def g_strdup (s : List Nat) : List Nat := s.take (strlen s)

/-- The member `seed` of the union `checksum_digest`: a native 64-bit load of
the first eight digest bytes. -/
def checksum_digest_seed (digest : List Nat) : Nat := load_native (digest.take 8)

/-- The member named prefix of the union `checksum_digest`: a native 16-bit
load of the first two digest bytes. -/
def checksum_digest_prefix (digest : List Nat) : Nat := load_native (digest.take 2)

/-- First half of the loop body: `nonce_str`, the first digest and the seed
handed to `cscoin_mt64_set_seed`. -/
def nonce_seed (H : List Nat → List Nat) (last_solution_hash : List Nat)
    (nonce : Nat) : Nat :=
  GUINT64_FROM_LE (checksum_digest_seed (SHA256_Final H
    (SHA256_Update (SHA256_Update SHA256_Init last_solution_hash 64)
      (g_snprintf 32 32 nonce) (strlen (g_snprintf 32 32 nonce)))))

/-- The `switch (challenge_type)` of the loop body: generator state and digest
context after it, and whether the `default` branch logged with `g_critical`. -/
def dispatch_challenge {σ : Type} (M : CSCoinMT64Ops σ)
    (challenge_type : CSCoinChallengeType) (parameters : CSCoinChallengeParameters)
    (mt64 : σ) (checksum : SHA256_CTX) : (σ × SHA256_CTX) × Bool :=
  match challenge_type with
  | CSCoinChallengeType.SORTED_LIST =>
    (solve_sorted_list_challenge M mt64 checksum parameters.sorted_list_nb_elements, false)
  | CSCoinChallengeType.REVERSE_SORTED_LIST =>
    (solve_reverse_sorted_list_challenge M mt64 checksum
      parameters.reverse_sorted_list_nb_elements, false)
  | CSCoinChallengeType.SHORTEST_PATH =>
    (solve_shortest_path_challenge M mt64 checksum parameters.shortest_path_grid_size
      parameters.shortest_path_nb_blockers, false)
  | CSCoinChallengeType.UNKNOWN _ => ((mt64, checksum), true)

/-- Second half of the loop body for one nonce, starting from the worker's
generator state `mt64`: the generator state after the iteration, the second
digest, and whether `g_critical` was called. -/
def nonce_digest {σ : Type} (H : List Nat → List Nat) (M : CSCoinMT64Ops σ)
    (challenge_type : CSCoinChallengeType) (last_solution_hash : List Nat)
    (parameters : CSCoinChallengeParameters) (mt64 : σ) (nonce : Nat) :
    σ × List Nat × Bool :=
  let r := dispatch_challenge M challenge_type parameters
    (M.set_seed mt64 (nonce_seed H last_solution_hash nonce)) SHA256_Init
  (r.1.1, SHA256_Final H r.1.2, r.2)

/-- The test `hash_prefix_num == GUINT16_FROM_LE (checksum_digest.prefix)`. -/
def prefix_matches (target : Nat) (digest : List Nat) : Bool :=
  target == GUINT16_FROM_LE ( checksum_digest_prefix digest)

/-- Where a worker stands in its `for` loop. -/
inductive PC
  /-- About to test `nonce < nonce_to` and the `done || cancelled` guard. -/
  | loop_head
  /-- Past the guard, about to hash `nonce` and compare. -/
  | loop_body
  /-- Left the loop. -/
  | exited
  deriving DecidableEq

/-- Private variables of one thread of the parallel region. -/
structure Worker (σ : Type) where
  mt64 : σ
  nonce : Nat
  nonce_to : Nat
  pc : PC

/-- Shared variables of the call, plus a record of what happened. -/
structure SearchState (σ : Type) where
  workers : List (Worker σ)
  done : Bool
  ret : Option (List Nat)
  /-- State of the `GCancellable`. -/
  cancelled : Bool
  /-- Record: the nonces hashed so far, latest first. -/
  scanned : List Nat
  /-- Record: the stores to `ret` so far, latest first, as thread and nonce. -/
  writes : List (Nat × Nat)
  /-- Record: number of `g_critical` calls so far. -/
  criticals : Nat

/-- What can happen next: thread `t` runs up to its next access of shared
state, or some other thread of the program cancels the `GCancellable`. -/
inductive Event
  | tick (thread_num : Nat)
  | cancel
  deriving DecidableEq

/-- Inputs that stay fixed during one call. -/
structure Search (σ : Type) where
  H : List Nat → List Nat
  M : CSCoinMT64Ops σ
  challenge_type : CSCoinChallengeType
  last_solution_hash : List Nat
  target : Nat
  parameters : CSCoinChallengeParameters

/-- `nonce_partition_size = G_MAXUINT / omp_get_num_threads ()`. -/
def nonce_partition_size (num_threads : Nat) : Nat := G_MAXUINT / num_threads

/-- `nonce_from = omp_get_thread_num () * nonce_partition_size` in `guint`. -/
def nonce_from (num_threads thread_num : Nat) : Nat :=
  (thread_num * nonce_partition_size num_threads) % 2 ^ 32

/-- `nonce_to = nonce_from + nonce_partition_size` in `guint`. -/
def nonce_to (num_threads thread_num : Nat) : Nat :=
  (nonce_from num_threads thread_num + nonce_partition_size num_threads) % 2 ^ 32

/-- A thread on entry to its loop: `cscoin_mt64_init`, the partition bounds,
`nonce = nonce_from`. -/
def worker_init {σ : Type} (M : CSCoinMT64Ops σ) (num_threads thread_num : Nat) :
    Worker σ :=
  { mt64 := M.init
    nonce := nonce_from num_threads thread_num
    nonce_to := nonce_to num_threads thread_num
    pc := PC.loop_head }

/-- State on entry to the parallel region with `num_threads` threads. -/
def search_init {σ : Type} (M : CSCoinMT64Ops σ) (num_threads : Nat)
    (cancelled : Bool) : SearchState σ :=
  { workers := (List.range num_threads).map (worker_init M num_threads)
    done := false
    ret := none
    cancelled := cancelled
    scanned := []
    writes := []
    criticals := 0 }

/-- One step of worker `w`, thread `t`, in state `s`. At the loop head: the
loop test and the guard `done || g_cancellable_is_cancelled (cancellable)`.
In the loop body: both digests for `nonce`, the comparison, the stores to
`done` and `ret` on a match, and `nonce++`. -/
def worker_step {σ : Type} (E : Search σ) (s : SearchState σ) (t : Nat)
    (w : Worker σ) : SearchState σ :=
  match w.pc with
  | PC.exited => s
  | PC.loop_head =>
    if w.nonce < w.nonce_to then
      if s.done || s.cancelled then
        { s with workers := s.workers.set t { w with pc := PC.exited } }
      else
        { s with workers := s.workers.set t { w with pc := PC.loop_body } }
    else
      { s with workers := s.workers.set t { w with pc := PC.exited } }
  | PC.loop_body =>
    let r := nonce_digest E.H E.M E.challenge_type E.last_solution_hash E.parameters
      w.mt64 w.nonce
    let s1 : SearchState σ :=
      { s with
        workers := s.workers.set t
          { w with mt64 := r.1, nonce := (w.nonce + 1) % 2 ^ 32, pc := PC.loop_head }
        scanned := w.nonce :: s.scanned
        criticals := if r.2.2 then s.criticals + 1 else s.criticals }
    if prefix_matches E.target r.2.1 then
      { s1 with
        done := true
        ret := some (g_strdup (g_snprintf 32 32 w.nonce))
        writes := (t, w.nonce) :: s1.writes }
    else s1

/-- Effect of one event on the state. -/
def search_step {σ : Type} (E : Search σ) (s : SearchState σ) : Event → SearchState σ
  | Event.cancel => { s with cancelled := true }
  | Event.tick t =>
    match s.workers.get? t with
    | none => s
    | some w => worker_step E s t w

/-- State after the events of a schedule, in order. -/
def search_run {σ : Type} (E : Search σ) (s : SearchState σ) (sched : List Event) :
    SearchState σ :=
  sched.foldl (search_step E) s

/-- `G_IO_ERROR_CANCELLED`, the one error the solver ever sets. -/
inductive GIOErrorEnum
  | G_IO_ERROR_CANCELLED
  deriving DecidableEq, Repr

/-- What the caller gets: the returned pointer (`none` for `NULL`) and the
error stored through `error`, if any. -/
structure SolveResult where
  ret : Option (List Nat)
  error : Option GIOErrorEnum
  deriving DecidableEq, Repr

/-- Code after the parallel region:
`if (g_cancellable_set_error_if_cancelled (cancellable, error)) return NULL;`
`return ret;`. -/
def solve_return {σ : Type} (s : SearchState σ) : SolveResult :=
  if s.cancelled then { ret := none, error := some GIOErrorEnum.G_IO_ERROR_CANCELLED }
  else { ret := s.ret, error := none }

/-- The inputs of a call as a `Search`. -/
def solve_search {σ : Type} (H : List Nat → List Nat) (M : CSCoinMT64Ops σ)
    (challenge_type : CSCoinChallengeType) (last_solution_hash : List Nat)
    ( hash_prefix : List Nat) (parameters : CSCoinChallengeParameters) : Search σ :=
  { H := H
    M := M
    challenge_type := challenge_type
    last_solution_hash := last_solution_hash
    target := hash_prefix_num hash_prefix
    parameters := parameters }

/-- State of a call of `cscoin_solve_challenge` after the events of `sched`:
`num_threads` is what `omp_get_num_threads ()` returns, `cancelled` tells
whether the `GCancellable` is already cancelled at the call. -/
def solve_state {σ : Type} (H : List Nat → List Nat) (M : CSCoinMT64Ops σ)
    (num_threads : Nat) (challenge_type : CSCoinChallengeType)
    (last_solution_hash : List Nat) ( hash_prefix : List Nat)
    (parameters : CSCoinChallengeParameters) (cancelled : Bool) (sched : List Event) :
    SearchState σ :=
  search_run (solve_search H M challenge_type last_solution_hash hash_prefix parameters)
    (search_init M num_threads cancelled) sched

/-- `cscoin_solve_challenge` under the schedule `sched`: `none` while some
thread is still in its loop at the end of `sched` (the parallel region has not
been joined), otherwise the result handed to the caller. -/
def cscoin_solve_challenge {σ : Type} (H : List Nat → List Nat) (M : CSCoinMT64Ops σ)
    (num_threads : Nat) (_challenge_id : Int) (challenge_type : CSCoinChallengeType)
    (last_solution_hash : List Nat) ( hash_prefix : List Nat)
    (parameters : CSCoinChallengeParameters) (cancelled : Bool) (sched : List Event) :
    Option SolveResult :=
  if (solve_state H M num_threads challenge_type last_solution_hash hash_prefix
      parameters cancelled sched).workers.all (fun w => w.pc == PC.exited) then
    some (solve_return (solve_state H M num_threads challenge_type last_solution_hash
      hash_prefix parameters cancelled sched))
  else none

/-! ## Specification-side definitions -/

/-- Number denoted by a string of decimal digits. -/
def decimalValue (text : List Nat) : Nat :=
  text.foldl (fun acc c => 10 * acc + (c - 48)) 0

/-- `text` is the shortest decimal text of `v`: not empty, only the digits
`'0'` .. `'9'` (so no sign and no grouping), no leading zero except for the
text `"0"` itself, and it denotes `v`. -/
def ShortestDecimal (v : Nat) (text : List Nat) : Prop :=
  text ≠ [] ∧ (∀ c ∈ text, 48 ≤ c ∧ c ≤ 57) ∧ (text.head? = some 48 → text = [48]) ∧
    decimalValue text = v

/-- The first `count` values drawn from the generator in state `mt64`, each
stored as a `guint64`. -/
def mt64_draws {σ : Type} (M : CSCoinMT64Ops σ) : Nat → σ → List Nat
  | 0, _ => []
  | count + 1, mt64 =>
    ((M.next_uint64 mt64).1 % 2 ^ 64) :: mt64_draws M count (M.next_uint64 mt64).2

/-- Generator state after exactly `count` draws from state `mt64`. -/
def mt64_after {σ : Type} (M : CSCoinMT64Ops σ) : Nat → σ → σ
  | 0, mt64 => mt64
  | count + 1, mt64 => mt64_after M count (M.next_uint64 mt64).2

/-- Little-endian 64-bit integer formed by the first eight bytes of a digest. -/
def le64_of_digest (digest : List Nat) : Nat :=
  ∑ k in Finset.range 8, digest.getD k 0 * 256 ^ k

/-- The pipeline of the specification recomputed for a nonce text `s`, on a
freshly initialised generator: `digest1` is the digest of the first 64 bytes of
`last_solution_hash` followed by `s`; the generator is reseeded with the first
eight bytes of `digest1`; the challenge generator runs into a fresh digest
context; the result is the finalised second digest. -/
def pipeline_digest2 {σ : Type} (H : List Nat → List Nat) (M : CSCoinMT64Ops σ)
    (challenge_type : CSCoinChallengeType) (last_solution_hash : List Nat)
    (parameters : CSCoinChallengeParameters) (s : List Nat) : List Nat :=
  SHA256_Final H (dispatch_challenge M challenge_type parameters
    (M.set_seed M.init (le64_of_digest (SHA256_Final H (last_solution_hash.take 64 ++ s))))
    SHA256_Init).1.2

/-! ## Concrete instances for the examples -/

/-- Right rotation of a 32-bit word. -/
def sha256_rotr (x n : Nat) : Nat := ((x >>> n) ||| (x <<< (32 - n))) % 2 ^ 32

/-- Round constants of SHA-256 (FIPS 180-4, section 4.2.2). -/
def sha256_K : List Nat := [
  1116352408, 1899447441, 3049323471, 3921009573, 961987163, 1508970993, 2453635748, 2870763221,
  3624381080, 310598401, 607225278, 1426881987, 1925078388, 2162078206, 2614888103, 3248222580,
  3835390401, 4022224774, 264347078, 604807628, 770255983, 1249150122, 1555081692, 1996064986,
  2554220882, 2821834349, 2952996808, 3210313671, 3336571891, 3584528711, 113926993, 338241895,
  666307205, 773529912, 1294757372, 1396182291, 1695183700, 1986661051, 2177026350, 2456956037,
  2730485921, 2820302411, 3259730800, 3345764771, 3516065817, 3600352804, 4094571909, 275423344,
  430227734, 506948616, 659060556, 883997877, 958139571, 1322822218, 1537002063, 1747873779,
  1955562222, 2024104815, 2227730452, 2361852424, 2428436474, 2756734187, 3204031479, 3329325298
  ]

/-- Initial hash value of SHA-256 (FIPS 180-4, section 5.3.3). -/
def sha256_H0 : List Nat := [
  1779033703, 3144134277, 1013904242, 2773480762, 1359893119, 2600822924, 528734635, 1541459225
  ]

/-- Padding of SHA-256: the byte 0x80, zero bytes up to 56 modulo 64, and the
bit length as eight big-endian bytes. -/
def sha256_pad (m : List Nat) : List Nat :=
  m ++ [128] ++ List.replicate ((119 - m.length % 64) % 64) 0 ++
    (List.range 8).map (fun i => ((8 * m.length) >>> (8 * (7 - i))) % 256)

/-- Big-endian 32-bit words of a block of bytes. -/
def sha256_words : Nat → List Nat → List Nat
  | 0, _ => []
  | n + 1, bs =>
    ((((bs.getD 0 0 % 256) * 256 + bs.getD 1 0 % 256) * 256 + bs.getD 2 0 % 256) * 256
        + bs.getD 3 0 % 256) :: sha256_words n (bs.drop 4)

/-- Message schedule: extends the sixteen block words by `n` more words. -/
def sha256_schedule : Nat → List Nat → List Nat
  | 0, w => w
  | n + 1, w =>
    let t := w.length
    let w15 := w.getD (t - 15) 0
    let w2 := w.getD (t - 2) 0
    let s0 := sha256_rotr w15 7 ^^^ sha256_rotr w15 18 ^^^ (w15 >>> 3)
    let s1 := sha256_rotr w2 17 ^^^ sha256_rotr w2 19 ^^^ (w2 >>> 10)
    sha256_schedule n (w ++ [(w.getD (t - 16) 0 + s0 + w.getD (t - 7) 0 + s1) % 2 ^ 32])

/-- One round of the compression function on the working variables
`[a, b, c, d, e, f, g, h]` with the constant-plus-schedule word `kw`. -/
def sha256_round (v : List Nat) (kw : Nat) : List Nat :=
  match v with
  | [a, b, c, d, e, f, g, h] =>
    let S1 := sha256_rotr e 6 ^^^ sha256_rotr e 11 ^^^ sha256_rotr e 25
    let ch := (e &&& f) ^^^ ((e ^^^ 4294967295) &&& g)
    let t1 := (h + S1 + ch + kw) % 2 ^ 32
    let S0 := sha256_rotr a 2 ^^^ sha256_rotr a 13 ^^^ sha256_rotr a 22
    let maj := (a &&& b) ^^^ (a &&& c) ^^^ (b &&& c)
    [(t1 + S0 + maj) % 2 ^ 32, a, b, c, (d + t1) % 2 ^ 32, e, f, g]
  | _ => v

/-- Compression of one 64-byte block into the hash value `h`. -/
def sha256_compress (h : List Nat) (block : List Nat) : List Nat :=
  List.zipWith (fun x y => (x + y) % 2 ^ 32) h
    ((List.zipWith (fun k w => k + w) sha256_K
      (sha256_schedule 48 (sha256_words 16 block))).foldl sha256_round h)

/-- Compression of the first `n` blocks of `bs`. -/
def sha256_blocks : Nat → List Nat → List Nat → List Nat
  | 0, h, _ => h
  | n + 1, h, bs => sha256_blocks n (sha256_compress h (bs.take 64)) (bs.drop 64)

/-- SHA-256 of a byte string, as 32 bytes (FIPS 180-4). It is the digest the
solver links against; it serves as the concrete `H` of the examples. -/
def sha256 (m : List Nat) : List Nat :=
  (sha256_blocks ((sha256_pad m).length / 64) sha256_H0 (sha256_pad m)).flatMap
    (fun w => [w >>> 24 % 256, w >>> 16 % 256, w >>> 8 % 256, w % 256])

/-- A linear congruential generator (the MMIX constants) with the interface
of the generator; reseeding replaces the whole state. It stands in for
`cscoin-mt64.c` in the examples. -/
def lcg64 : CSCoinMT64Ops Nat :=
  { init := 0
    set_seed := fun _ seed => seed
    next_uint64 := fun s =>
      ((6364136223846793005 * s + 1442695040888963407) % 2 ^ 64,
       (6364136223846793005 * s + 1442695040888963407) % 2 ^ 64) }

/-- A `last_solution_hash` of 64 characters `'0'`. -/
def zero_hash : List Nat := List.replicate 64 48

/-- Parameters asking for three elements. -/
def three_elements : CSCoinChallengeParameters :=
  { sorted_list_nb_elements := 3
    reverse_sorted_list_nb_elements := 3
    shortest_path_grid_size := 0
    shortest_path_nb_blockers := 0 }

/-! ## Further definitions: tiles, schedules -/

/-- The 2-bit field number `k` of a tile index, `(t >> 2 * k) & 3`. -/
def tile_field (t k : Nat) : Nat := (t >>> (2 * k)) &&& 3

/-- The entry `CSCOIN_SHORTEST_PATH_TILE_COST_PER_DIRECTION[t][d]`. -/
def tile_cost (t d : Nat) : Nat :=
  (CSCOIN_SHORTEST_PATH_TILE_COST_PER_DIRECTION.getD t []).getD d 0

/-- The schedule that runs the threads one after the other, each for `ticks`
steps. -/
def sequential_schedule (num_threads ticks : Nat) : List Event :=
  (List.range num_threads).flatMap (fun t => List.replicate ticks (Event.tick t))

/-- Parameters of a shortest path challenge on a 4 x 4 grid with two blockers. -/
def small_grid : CSCoinChallengeParameters :=
  { sorted_list_nb_elements := 0
    reverse_sorted_list_nb_elements := 0
    shortest_path_grid_size := 4
    shortest_path_nb_blockers := 2 }

/-! ## Further definitions: progress of a worker -/

/-- Number of steps a worker still takes before it has left its loop, when no
nonce matches and nobody cancels: two per nonce left, one for the final loop
test. -/
def worker_steps_left {σ : Type} (w : Worker σ) : Nat :=
  match w.pc with
  | PC.exited => 0
  | PC.loop_head => 2 * (w.nonce_to - w.nonce) + 1
  | PC.loop_body => 2 * (w.nonce_to - w.nonce)

/-- State of a search with `P` threads in which nothing has matched and nobody
has cancelled: thread `t` is inside its own range. -/
def exhaust_invariant {σ : Type} (P : Nat) (s : SearchState σ) : Prop :=
  s.ret = none ∧ s.done = false ∧ s.cancelled = false ∧ s.workers.length = P
    ∧ ∀ t w, s.workers[t]? = some w →
        w.nonce_to = nonce_to P t ∧ nonce_from P t ≤ w.nonce ∧ w.nonce ≤ w.nonce_to
          ∧ (w.pc = PC.loop_body → w.nonce < w.nonce_to)

/-! ## Further definitions: a single worker and its first match -/

/-- State of a search with one thread, never cancelled, whose least matching
nonce is `m`: either nothing is recorded yet and the thread is at or below `m`,
or `m` is recorded and the thread is leaving. Every hashed nonce is at most `m`. -/
def first_match_invariant {σ : Type} (m : Nat) (s : SearchState σ) : Prop :=
  s.cancelled = false
    ∧ ∃ w, s.workers = [w] ∧ w.nonce_to = 2 ^ 32 - 1 ∧ (∀ n ∈ s.scanned, n ≤ m)
      ∧ ((s.done = false ∧ s.ret = none ∧ w.nonce ≤ m ∧ w.pc ≠ PC.exited)
        ∨ (s.done = true ∧ s.ret = some (fmt_unsigned 32 m) ∧ w.pc ≠ PC.loop_body))

/-- Number of steps the single thread still takes before it has left its loop
when the least matching nonce is `m`. -/
def first_match_steps_left {σ : Type} (m : Nat) (s : SearchState σ) : Nat :=
  match s.workers with
  | [w] =>
    (match w.pc with
      | PC.exited => 0
      | PC.loop_head => if s.done then 1 else 2 * (m - w.nonce) + 3
      | PC.loop_body => 2 * (m - w.nonce) + 2)
  | _ => 0

/-! ## Decimal text -/

theorem utoa_loop_append (fuel : Nat) : ∀ (v : Nat) (buf : List Nat),
    utoa_loop fuel v buf = utoa_loop fuel v [] ++ buf := by
  induction fuel with
  | zero => intro v buf; simp [utoa_loop]
  | succ fuel ih =>
    intro v buf
    by_cases h : v / 10 = 0
    · simp [utoa_loop, h]
    · rw [utoa_loop, if_neg h, utoa_loop, if_neg h, ih (v / 10) ((48 + v % 10) :: buf),
        ih (v / 10) [48 + v % 10]]
      simp

theorem decimalValue_append_singleton (t : List Nat) (c : Nat) :
    decimalValue (t ++ [c]) = 10 * decimalValue t + (c - 48) := by
  simp [decimalValue, List.foldl_append]

theorem utoa_loop_shortest (fuel : Nat) : ∀ v : Nat, v < 10 ^ fuel → 1 ≤ fuel →
    ShortestDecimal v (utoa_loop fuel v []) := by
  induction fuel with
  | zero => intro v _ h; omega
  | succ fuel ih =>
    intro v hv _
    by_cases h : v / 10 = 0
    · have hv10 : v < 10 := by omega
      rw [utoa_loop, if_pos h]
      refine ⟨by simp, ?_, ?_, ?_⟩
      · intro c hc
        simp only [List.mem_singleton] at hc
        omega
      · intro hd
        simp only [List.head?_cons, Option.some.injEq] at hd
        have : v % 10 = 0 := by omega
        simp [this]
      · simp [decimalValue]
        omega
    · have hfuel : 1 ≤ fuel := by
        rcases Nat.eq_zero_or_pos fuel with h0 | h0
        · subst h0; simp at hv; omega
        · exact h0
      have hv10 : v / 10 < 10 ^ fuel := by
        rw [Nat.div_lt_iff_lt_mul (by norm_num)]
        rw [pow_succ] at hv
        exact hv
      obtain ⟨hne, hdig, hhead, hval⟩ := ih (v / 10) hv10 hfuel
      rw [utoa_loop, if_neg h, utoa_loop_append]
      refine ⟨by simp, ?_, ?_, ?_⟩
      · intro c hc
        rcases List.mem_append.mp hc with hc | hc
        · exact hdig c hc
        · simp only [List.mem_singleton] at hc
          omega
      · intro hd
        exfalso
        cases hl : utoa_loop fuel (v / 10) [] with
        | nil => exact hne hl
        | cons a l =>
          rw [hl] at hd hhead hval
          simp only [List.cons_append, List.head?_cons, Option.some.injEq] at hd
          have h1 := hhead (by simp [hd])
          rw [h1] at hval
          simp [decimalValue] at hval
          omega
      · rw [decimalValue_append_singleton, hval]
        omega

theorem utoa_loop_length (fuel : Nat) : ∀ v k : Nat, v < 10 ^ k → 1 ≤ k →
    (utoa_loop fuel v []).length ≤ k := by
  induction fuel with
  | zero => intro v k _ hk; simp [utoa_loop]
  | succ fuel ih =>
    intro v k hv hk
    by_cases h : v / 10 = 0
    · rw [utoa_loop, if_pos h]
      simpa using hk
    · obtain ⟨j, rfl⟩ : ∃ j, k = j + 1 := ⟨k - 1, by omega⟩
      have hj : 1 ≤ j := by
        rcases Nat.eq_zero_or_pos j with h0 | h0
        · subst h0; simp at hv; omega
        · exact h0
      have hv10 : v / 10 < 10 ^ j := by
        rw [Nat.div_lt_iff_lt_mul (by norm_num)]
        rw [pow_succ] at hv
        exact hv
      rw [utoa_loop, if_neg h, utoa_loop_append]
      have := ih (v / 10) j hv10 hj
      simp
      omega

theorem fmt_unsigned_32_shortest (v : Nat) (hv : v < 2 ^ 32) :
    ShortestDecimal v (fmt_unsigned 32 v) := by
  unfold fmt_unsigned
  rw [Nat.mod_eq_of_lt hv]
  exact utoa_loop_shortest 32 v (lt_trans hv (by norm_num)) (by norm_num)

theorem fmt_unsigned_64_shortest (v : Nat) (hv : v < 2 ^ 64) :
    ShortestDecimal v (fmt_unsigned 64 v) := by
  unfold fmt_unsigned
  rw [Nat.mod_eq_of_lt hv]
  exact utoa_loop_shortest 64 v (lt_trans hv (by norm_num)) (by norm_num)

theorem fmt_unsigned_32_length (v : Nat) : (fmt_unsigned 32 v).length ≤ 10 := by
  unfold fmt_unsigned
  exact utoa_loop_length 32 _ 10 (lt_trans (Nat.mod_lt _ (by norm_num)) (by norm_num))
    (by norm_num)

theorem fmt_unsigned_64_length (v : Nat) : (fmt_unsigned 64 v).length ≤ 20 := by
  unfold fmt_unsigned
  exact utoa_loop_length 64 _ 20 (lt_trans (Nat.mod_lt _ (by norm_num)) (by norm_num))
    (by norm_num)

theorem fmt_unsigned_nonzero (bits v : Nat) (hbits : 1 ≤ bits) :
    ∀ c ∈ fmt_unsigned bits v, c ≠ 0 := by
  intro c hc
  have hlt : v % 2 ^ bits < 10 ^ bits :=
    lt_of_lt_of_le (Nat.mod_lt _ (by positivity))
      (Nat.pow_le_pow_left (by norm_num) bits)
  have := (utoa_loop_shortest bits (v % 2 ^ bits) hlt hbits).2.1 c hc
  omega

theorem strlen_append_zero (t : List Nat) (ht : ∀ c ∈ t, c ≠ 0) :
    strlen (t ++ [0]) = t.length := by
  unfold strlen
  induction t with
  | nil => simp [List.takeWhile]
  | cons a l ih =>
    have ha : a ≠ 0 := ht a (by simp)
    have hl : ∀ c ∈ l, c ≠ 0 := fun c hc => ht c (by simp [hc])
    have hb : (a != 0) = true := by simp [ha]
    rw [List.cons_append, List.takeWhile_cons, hb]
    simp [ih hl]

theorem g_snprintf_32 (v : Nat) : g_snprintf 32 32 v = fmt_unsigned 32 v ++ [0] := by
  unfold g_snprintf
  rw [List.take_of_length_le]
  have := fmt_unsigned_32_length v
  omega

theorem g_snprintf_64 (v : Nat) : g_snprintf 32 64 v = fmt_unsigned 64 v ++ [0] := by
  unfold g_snprintf
  rw [List.take_of_length_le]
  have := fmt_unsigned_64_length v
  omega

theorem update_snprintf_32 (ctx : SHA256_CTX) (v : Nat) :
    SHA256_Update ctx (g_snprintf 32 32 v) (strlen (g_snprintf 32 32 v))
      = ctx ++ fmt_unsigned 32 v := by
  rw [g_snprintf_32, strlen_append_zero _ (fmt_unsigned_nonzero 32 v (by norm_num))]
  simp [SHA256_Update]

theorem update_snprintf_64 (ctx : SHA256_CTX) (v : Nat) :
    SHA256_Update ctx (g_snprintf 32 64 v) (strlen (g_snprintf 32 64 v))
      = ctx ++ fmt_unsigned 64 v := by
  rw [g_snprintf_64, strlen_append_zero _ (fmt_unsigned_nonzero 64 v (by norm_num))]
  simp [SHA256_Update]

theorem g_strdup_snprintf_32 (v : Nat) :
    g_strdup (g_snprintf 32 32 v) = fmt_unsigned 32 v := by
  unfold g_strdup
  rw [g_snprintf_32, strlen_append_zero _ (fmt_unsigned_nonzero 32 v (by norm_num))]
  simp

/-! ## `qsort` with the two comparators -/

theorem qsort_insert_perm (cmp : Nat → Nat → Int) (x : Nat) :
    ∀ l : List Nat, List.Perm (qsort_insert cmp x l) (x :: l) := by
  intro l
  induction l with
  | nil => simp [qsort_insert]
  | cons y ys ih =>
    unfold qsort_insert
    split
    · exact List.Perm.refl _
    · exact (List.Perm.cons y ih).trans (List.Perm.swap x y ys)

theorem qsort_perm (cmp : Nat → Nat → Int) :
    ∀ l : List Nat, List.Perm (qsort cmp l) l := by
  intro l
  induction l with
  | nil => simp [qsort]
  | cons x xs ih =>
    have h : qsort cmp (x :: xs) = qsort_insert cmp x (qsort cmp xs) := rfl
    rw [h]
    exact (qsort_insert_perm cmp x _).trans (List.Perm.cons x ih)

theorem qsort_insert_asc_sorted (x : Nat) :
    ∀ l : List Nat, List.Sorted (· ≤ ·) l →
      List.Sorted (· ≤ ·) (qsort_insert guint64cmp_asc x l) := by
  intro l
  induction l with
  | nil => intro _; simp [qsort_insert]
  | cons y ys ih =>
    intro hs
    have hy := List.rel_of_sorted_cons hs
    unfold qsort_insert
    by_cases hxy : x < y
    · have hc : guint64cmp_asc x y ≤ 0 := by simp [guint64cmp_asc, hxy]
      rw [if_pos hc]
      refine List.sorted_cons.mpr ⟨?_, hs⟩
      intro b hb
      rcases List.mem_cons.mp hb with rfl | hb
      · exact le_of_lt hxy
      · exact le_trans (le_of_lt hxy) (hy b hb)
    · have hc : ¬ guint64cmp_asc x y ≤ 0 := by simp [guint64cmp_asc, hxy]
      rw [if_neg hc]
      refine List.sorted_cons.mpr ⟨?_, ih hs.of_cons⟩
      intro b hb
      rcases List.mem_cons.mp ((qsort_insert_perm _ x ys).subset hb) with rfl | hb
      · exact not_lt.mp hxy
      · exact hy b hb

theorem qsort_insert_desc_sorted (x : Nat) :
    ∀ l : List Nat, List.Sorted (· ≥ ·) l →
      List.Sorted (· ≥ ·) (qsort_insert guint64cmp_desc x l) := by
  intro l
  induction l with
  | nil => intro _; simp [qsort_insert]
  | cons y ys ih =>
    intro hs
    have hy := List.rel_of_sorted_cons hs
    unfold qsort_insert
    by_cases hxy : x > y
    · have hc : guint64cmp_desc x y ≤ 0 := by simp [guint64cmp_desc, hxy]
      rw [if_pos hc]
      refine List.sorted_cons.mpr ⟨?_, hs⟩
      intro b hb
      rcases List.mem_cons.mp hb with rfl | hb
      · exact le_of_lt hxy
      · exact le_trans (hy b hb) (le_of_lt hxy)
    · have hc : ¬ guint64cmp_desc x y ≤ 0 := by simp [guint64cmp_desc, hxy]
      rw [if_neg hc]
      refine List.sorted_cons.mpr ⟨?_, ih hs.of_cons⟩
      intro b hb
      rcases List.mem_cons.mp ((qsort_insert_perm _ x ys).subset hb) with rfl | hb
      · exact not_lt.mp hxy
      · exact hy b hb

theorem qsort_asc_sorted (l : List Nat) : List.Sorted (· ≤ ·) (qsort guint64cmp_asc l) := by
  induction l with
  | nil => simp [qsort]
  | cons x xs ih => exact qsort_insert_asc_sorted x _ ih

theorem qsort_desc_sorted (l : List Nat) :
    List.Sorted (· ≥ ·) (qsort guint64cmp_desc l) := by
  induction l with
  | nil => simp [qsort]
  | cons x xs ih => exact qsort_insert_desc_sorted x _ ih

theorem qsort_desc_eq_reverse_asc (l : List Nat) :
    qsort guint64cmp_desc l = (qsort guint64cmp_asc l).reverse := by
  apply List.eq_of_perm_of_sorted (r := (· ≥ ·))
  · exact (qsort_perm _ l).trans (((List.reverse_perm _).trans (qsort_perm _ l)).symm)
  · exact qsort_desc_sorted l
  · have h := qsort_asc_sorted l
    unfold List.Sorted at h ⊢
    rw [List.pairwise_reverse]
    exact h

/-! ## The first loop of the list generators -/

theorem fill_numbers_eq {σ : Type} (M : CSCoinMT64Ops σ) (remaining : Nat) :
    ∀ (i : Nat) (mt64 : σ) (numbers : List Nat), i + remaining ≤ numbers.length →
      fill_numbers M remaining i mt64 numbers
        = (numbers.take i ++ mt64_draws M remaining mt64 ++ numbers.drop (i + remaining),
           mt64_after M remaining mt64) := by
  induction remaining with
  | zero =>
    intro i mt64 numbers _
    simp [fill_numbers, mt64_draws, mt64_after]
  | succ k ih =>
    intro i mt64 numbers h
    rw [fill_numbers, ih (i + 1) _ _ (by rw [List.length_set]; omega)]
    have hi : i < numbers.length := by omega
    simp only [mt64_draws, mt64_after, Prod.mk.injEq, and_true]
    have hlen : (numbers.take i).length = i := by
      rw [List.length_take]; omega
    rw [List.set_eq_take_cons_drop _ hi, List.take_append_eq_append_take,
      List.drop_append_eq_append_drop, hlen]
    have h1 : List.take (i + 1) (List.take i numbers) = List.take i numbers := by
      rw [List.take_take]; congr 1; omega
    have h2 : List.drop (i + 1 + k) (List.take i numbers) = [] := by
      rw [List.drop_eq_nil_iff, hlen]; omega
    have h3 : i + 1 + k - i = k + 1 := by omega
    have h4 : i + 1 - i = 1 := by omega
    rw [h1, h2, h3, h4]
    simp [List.drop_drop, Nat.add_comm, Nat.add_left_comm]

theorem fill_numbers_fresh {σ : Type} (M : CSCoinMT64Ops σ) (count : Nat) (mt64 : σ) :
    fill_numbers M count 0 mt64 (List.replicate count 0)
      = (mt64_draws M count mt64, mt64_after M count mt64) := by
  rw [fill_numbers_eq M count 0 mt64 _ (by simp)]
  simp

theorem mt64_draws_length {σ : Type} (M : CSCoinMT64Ops σ) (count : Nat) :
    ∀ mt64 : σ, (mt64_draws M count mt64).length = count := by
  induction count with
  | zero => intro _; rfl
  | succ k ih => intro mt64; simp [mt64_draws, ih]

theorem mt64_draws_lt {σ : Type} (M : CSCoinMT64Ops σ) (count : Nat) :
    ∀ (mt64 : σ), ∀ v ∈ mt64_draws M count mt64, v < 2 ^ 64 := by
  induction count with
  | zero => intro _ v hv; simp [mt64_draws] at hv
  | succ k ih =>
    intro mt64 v hv
    simp only [mt64_draws, List.mem_cons] at hv
    rcases hv with rfl | hv
    · exact Nat.mod_lt _ (by norm_num)
    · exact ih _ v hv

/-! ## The shortest decimal text is unique -/

theorem decimalValue_zero_head (t : List Nat) :
    t ≠ [] → (∀ c ∈ t, 48 ≤ c ∧ c ≤ 57) → decimalValue t = 0 → t.head? = some 48 := by
  induction t using List.reverseRecOn with
  | nil => intro h; exact absurd rfl h
  | append_singleton l a ih =>
    intro _ hdig hval
    rw [decimalValue_append_singleton] at hval
    have ha := hdig a (by simp)
    have hl0 : decimalValue l = 0 := by omega
    have ha48 : a = 48 := by omega
    cases l with
    | nil => simp [ha48]
    | cons b l2 =>
      have := ih (by simp) (fun c hc => hdig c (by simp at hc ⊢; tauto)) hl0
      simpa using this

theorem head?_append_singleton_of_ne_nil (l : List Nat) (a : Nat) (h : l ≠ []) :
    (l ++ [a]).head? = l.head? := by
  cases l with
  | nil => exact absurd rfl h
  | cons b l2 => rfl

theorem ShortestDecimal_init (v : Nat) (l : List Nat) (a : Nat) (hl : l ≠ [])
    (h : ShortestDecimal v (l ++ [a])) : ShortestDecimal (decimalValue l) l := by
  obtain ⟨_, hdig, hhead, _⟩ := h
  refine ⟨hl, fun c hc => hdig c (by simp [hc]), ?_, rfl⟩
  intro hh
  exfalso
  have := hhead (by rw [head?_append_singleton_of_ne_nil l a hl]; exact hh)
  have hlen := congrArg List.length this
  simp at hlen
  exact hl hlen

theorem ShortestDecimal_unique (a : List Nat) :
    ∀ (b : List Nat) (v : Nat), ShortestDecimal v a → ShortestDecimal v b → a = b := by
  induction a using List.reverseRecOn with
  | nil => intro b v h _; exact absurd rfl h.1
  | append_singleton a1 x ih =>
    intro b v ha hb
    rcases List.eq_nil_or_concat b with rfl | ⟨b1, y, rfl⟩
    · exact absurd rfl hb.1
    · rw [List.concat_eq_append] at hb ⊢
      have hx := ha.2.1 x (by simp)
      have hy := hb.2.1 y (by simp)
      have hva := ha.2.2.2
      have hvb := hb.2.2.2
      rw [decimalValue_append_singleton] at hva hvb
      have hxy : x = y := by omega
      have hv1 : decimalValue a1 = decimalValue b1 := by omega
      subst hxy
      by_cases ha1 : a1 = []
      · by_cases hb1 : b1 = []
        · rw [ha1, hb1]
        · exfalso
          have h0 : decimalValue b1 = 0 := by rw [← hv1, ha1]; rfl
          have hh := decimalValue_zero_head b1 hb1
            (fun c hc => hb.2.1 c (by simp [hc])) h0
          have := (ShortestDecimal_init v b1 x hb1 hb).2.2.1 hh
          rw [this] at hb
          have h2 := hb.2.2.1 (by simp)
          simp at h2
      · by_cases hb1 : b1 = []
        · exfalso
          have h0 : decimalValue a1 = 0 := by rw [hv1, hb1]; rfl
          have hh := decimalValue_zero_head a1 ha1
            (fun c hc => ha.2.1 c (by simp [hc])) h0
          have := (ShortestDecimal_init v a1 x ha1 ha).2.2.1 hh
          rw [this] at ha
          have h2 := ha.2.2.1 (by simp)
          simp at h2
        · have := ih b1 (decimalValue a1) (ShortestDecimal_init v a1 x ha1 ha)
            (hv1 ▸ ShortestDecimal_init v b1 x hb1 hb)
          rw [this]

/-! ## What the list generators feed to the digest -/

theorem feed_numbers_eq (numbers : List Nat) : ∀ checksum : SHA256_CTX,
    feed_numbers checksum numbers = checksum ++ (numbers.map (fmt_unsigned 64)).flatten := by
  induction numbers with
  | nil => intro checksum; simp [feed_numbers]
  | cons x xs ih =>
    intro checksum
    rw [feed_numbers, update_snprintf_64, ih]
    simp

theorem sorted_list_numbers_eq {σ : Type} (M : CSCoinMT64Ops σ) (mt64 : σ) (count : Nat) :
    sorted_list_numbers M mt64 count = qsort guint64cmp_asc (mt64_draws M count mt64) := by
  unfold sorted_list_numbers
  rw [Int.toNat_ofNat, fill_numbers_fresh]

theorem reverse_sorted_list_numbers_eq {σ : Type} (M : CSCoinMT64Ops σ) (mt64 : σ)
    (count : Nat) :
    reverse_sorted_list_numbers M mt64 count
      = qsort guint64cmp_desc (mt64_draws M count mt64) := by
  unfold reverse_sorted_list_numbers
  rw [Int.toNat_ofNat, fill_numbers_fresh]

theorem sorted_list_numbers_lt {σ : Type} (M : CSCoinMT64Ops σ) (mt64 : σ) (count : Nat) :
    ∀ v ∈ sorted_list_numbers M mt64 count, v < 2 ^ 64 := by
  intro v hv
  rw [sorted_list_numbers_eq] at hv
  exact mt64_draws_lt M count mt64 v ((qsort_perm _ _).subset hv)

theorem reverse_sorted_list_numbers_lt {σ : Type} (M : CSCoinMT64Ops σ) (mt64 : σ)
    (count : Nat) : ∀ v ∈ reverse_sorted_list_numbers M mt64 count, v < 2 ^ 64 := by
  intro v hv
  rw [reverse_sorted_list_numbers_eq] at hv
  exact mt64_draws_lt M count mt64 v ((qsort_perm _ _).subset hv)

/-! ## Claims on the list generators -/

/-- C4: for every generator state and every count, the values that
`solve_sorted_list_challenge` feeds to the digest (the array after `qsort`, fed
front to back) are non-decreasing and a permutation of the first `count`
values drawn from the generator, there are `count` of them, and the generator
is left in the state reached after exactly `count` draws. -/
theorem sorted_list_feeds_sorted_permutation {σ : Type} (M : CSCoinMT64Ops σ) (mt64 : σ)
    (checksum : SHA256_CTX) (count : Nat) :
    solve_sorted_list_challenge M mt64 checksum count
        = (mt64_after M count mt64,
           feed_numbers checksum (sorted_list_numbers M mt64 count))
      ∧ List.Sorted (· ≤ ·) (sorted_list_numbers M mt64 count)
      ∧ List.Perm (sorted_list_numbers M mt64 count) (mt64_draws M count mt64)
      ∧ (sorted_list_numbers M mt64 count).length = count := by
  refine ⟨?_, ?_, ?_, ?_⟩
  · unfold solve_sorted_list_challenge
    rw [Int.toNat_ofNat, fill_numbers_fresh]
  · rw [sorted_list_numbers_eq]; exact qsort_asc_sorted _
  · rw [sorted_list_numbers_eq]; exact qsort_perm _ _
  · rw [sorted_list_numbers_eq, (qsort_perm _ _).length_eq, mt64_draws_length]

/-- C5: for every generator state and every count, the values that
`solve_reverse_sorted_list_challenge` feeds to the digest are non-increasing,
and they are exactly the reversal of the values `solve_sorted_list_challenge`
feeds for the same generator state and count. -/
theorem reverse_sorted_list_is_reversal {σ : Type} (M : CSCoinMT64Ops σ) (mt64 : σ)
    (checksum : SHA256_CTX) (count : Nat) :
    solve_reverse_sorted_list_challenge M mt64 checksum count
        = (mt64_after M count mt64,
           feed_numbers checksum (reverse_sorted_list_numbers M mt64 count))
      ∧ List.Sorted (· ≥ ·) (reverse_sorted_list_numbers M mt64 count)
      ∧ reverse_sorted_list_numbers M mt64 count
          = (sorted_list_numbers M mt64 count).reverse := by
  refine ⟨?_, ?_, ?_⟩
  · unfold solve_reverse_sorted_list_challenge
    rw [Int.toNat_ofNat, fill_numbers_fresh]
  · rw [reverse_sorted_list_numbers_eq]; exact qsort_desc_sorted _
  · rw [reverse_sorted_list_numbers_eq, sorted_list_numbers_eq]
    exact qsort_desc_eq_reverse_asc _

/-- C6: for both list generators and every count, the bytes added to the
digest context are the concatenation, in output order and with nothing in
between, of the `%lu` text of each value, and that text is the shortest
decimal text of the value. -/
theorem list_generators_feed_decimal_concat {σ : Type} (M : CSCoinMT64Ops σ) (mt64 : σ)
    (checksum : SHA256_CTX) (count : Nat) :
    ((solve_sorted_list_challenge M mt64 checksum count).2
        = checksum ++ ((sorted_list_numbers M mt64 count).map (fmt_unsigned 64)).flatten
      ∧ ∀ v ∈ sorted_list_numbers M mt64 count, ShortestDecimal v (fmt_unsigned 64 v))
    ∧ ((solve_reverse_sorted_list_challenge M mt64 checksum count).2
        = checksum
            ++ ((reverse_sorted_list_numbers M mt64 count).map (fmt_unsigned 64)).flatten
      ∧ ∀ v ∈ reverse_sorted_list_numbers M mt64 count,
          ShortestDecimal v (fmt_unsigned 64 v)) := by
  refine ⟨⟨?_, ?_⟩, ⟨?_, ?_⟩⟩
  · exact feed_numbers_eq _ _
  · intro v hv
    exact fmt_unsigned_64_shortest v (sorted_list_numbers_lt M mt64 count v hv)
  · exact feed_numbers_eq _ _
  · intro v hv
    exact fmt_unsigned_64_shortest v (reverse_sorted_list_numbers_lt M mt64 count v hv)

/-! ## The target prefix -/

theorem GUINT16_SWAP_LE_BE_eq (v : Nat) (hv : v < 65536) :
    GUINT16_SWAP_LE_BE v = v / 256 + (v % 256) * 256 := by
  unfold GUINT16_SWAP_LE_BE
  have h1 : v >>> 8 = v / 256 := by rw [Nat.shiftRight_eq_div_pow]
  have h2 : v <<< 8 = 2 ^ 8 * v := by rw [Nat.shiftLeft_eq, Nat.mul_comm]
  have h3 : v / 256 < 2 ^ 8 := by omega
  rw [h1, h2, Nat.lor_comm, ← Nat.mul_add_lt_is_or h3 v]
  omega

theorem hex_digit_value_bounds (c d : Nat) (h : hex_digit_value c = some d) :
    d < 16 ∧ ((48 ≤ c ∧ c ≤ 57) ∨ (97 ≤ c ∧ c ≤ 102) ∨ (65 ≤ c ∧ c ≤ 70)) := by
  unfold hex_digit_value at h
  split_ifs at h with h1 h2 h3 <;> simp at h <;> omega

theorem strtol16_four_digits (h1 h2 h3 h4 d1 d2 d3 d4 : Nat)
    (e1 : hex_digit_value h1 = some d1) (e2 : hex_digit_value h2 = some d2)
    (e3 : hex_digit_value h3 = some d3) (e4 : hex_digit_value h4 = some d4) :
    strtol16 [h1, h2, h3, h4] = ((4096 * d1 + 256 * d2 + 16 * d3 + d4 : Nat) : Int) := by
  obtain ⟨b1, r1⟩ := hex_digit_value_bounds h1 d1 e1
  obtain ⟨b2, r2⟩ := hex_digit_value_bounds h2 d2 e2
  obtain ⟨b3, _⟩ := hex_digit_value_bounds h3 d3 e3
  obtain ⟨b4, _⟩ := hex_digit_value_bounds h4 d4 e4
  have hsp : isspace h1 = false := by
    unfold isspace
    rcases r1 with r | r | r <;> simp <;> omega
  have hm : h1 ≠ 45 := by omega
  have hp : h1 ≠ 43 := by omega
  have hx : (h2 == 120 || h2 == 88) = false := by
    rcases r2 with r | r | r <;> simp <;> omega
  have hacc : strtol_accum 0 [h1, h2, h3, h4] = 4096 * d1 + 256 * d2 + 16 * d3 + d4 := by
    simp only [strtol_accum, e1, e2, e3, e4]
    ring
  have hs3 : (match [h1, h2, h3, h4] with
      | 48 :: x :: d :: r =>
        if ((x == 120 || x == 88) && (hex_digit_value d).isSome) = true then d :: r
        else [h1, h2, h3, h4]
      | _ => [h1, h2, h3, h4]) = [h1, h2, h3, h4] := by
    split
    · rename_i x d r heq
      simp only [List.cons.injEq] at heq
      obtain ⟨_, rfl, _, _⟩ := heq
      simp [hx]
    · rfl
  unfold strtol16
  simp only [List.dropWhile, hsp, List.head?_cons, hs3, hacc]
  have hm2 : (some h1 == some 45) = false := by simp [hm]
  have hp2 : (some h1 == some 43) = false := by simp [hp]
  simp only [hm2, hp2, Bool.or_self, Bool.false_eq_true, if_false]
  rw [hs3, hacc]
  have : ¬ (((4096 * d1 + 256 * d2 + 16 * d3 + d4 : Nat) : Int) > 2 ^ 63 - 1) := by
    push_cast; omega
  rw [if_neg this]

theorem hash_prefix_num_four_digits (h1 h2 h3 h4 d1 d2 d3 d4 : Nat)
    (e1 : hex_digit_value h1 = some d1) (e2 : hex_digit_value h2 = some d2)
    (e3 : hex_digit_value h3 = some d3) (e4 : hex_digit_value h4 = some d4) :
    hash_prefix_num [h1, h2, h3, h4] = (16 * d1 + d2) + 256 * (16 * d3 + d4) := by
  obtain ⟨b1, _⟩ := hex_digit_value_bounds h1 d1 e1
  obtain ⟨b2, _⟩ := hex_digit_value_bounds h2 d2 e2
  obtain ⟨b3, _⟩ := hex_digit_value_bounds h3 d3 e3
  obtain ⟨b4, _⟩ := hex_digit_value_bounds h4 d4 e4
  unfold hash_prefix_num GUINT16_FROM_BE to_guint16
  rw [strtol16_four_digits h1 h2 h3 h4 d1 d2 d3 d4 e1 e2 e3 e4]
  have hmod : (((4096 * d1 + 256 * d2 + 16 * d3 + d4 : Nat) : Int) % 65536).toNat
      = 4096 * d1 + 256 * d2 + 16 * d3 + d4 := by
    omega
  rw [hmod, GUINT16_SWAP_LE_BE_eq _ (by omega)]
  omega

/-- C2: for a `hash_prefix` of exactly four hexadecimal digits `h1 h2 h3 h4`
and a digest of 32 bytes, the comparison of the loop body succeeds if and only
if the first digest byte is the byte written `h1 h2` and the second digest byte
is the byte written `h3 h4`. -/
theorem prefix_match_in_bytes (h1 h2 h3 h4 d1 d2 d3 d4 : Nat) (digest : List Nat)
    (e1 : hex_digit_value h1 = some d1) (e2 : hex_digit_value h2 = some d2)
    (e3 : hex_digit_value h3 = some d3) (e4 : hex_digit_value h4 = some d4)
    (hlen : digest.length = 32) (hbytes : ∀ b ∈ digest, b < 256) :
    prefix_matches (hash_prefix_num [h1, h2, h3, h4]) digest = true
      ↔ digest.getD 0 0 = 16 * d1 + d2 ∧ digest.getD 1 0 = 16 * d3 + d4 := by
  obtain ⟨b1, _⟩ := hex_digit_value_bounds h1 d1 e1
  obtain ⟨b2, _⟩ := hex_digit_value_bounds h2 d2 e2
  obtain ⟨b3, _⟩ := hex_digit_value_bounds h3 d3 e3
  obtain ⟨b4, _⟩ := hex_digit_value_bounds h4 d4 e4
  rw [hash_prefix_num_four_digits h1 h2 h3 h4 d1 d2 d3 d4 e1 e2 e3 e4]
  match digest, hlen, hbytes with
  | x0 :: x1 :: rest, _, hb =>
    have hx0 : x0 < 256 := hb x0 (by simp)
    have hx1 : x1 < 256 := hb x1 (by simp)
    simp only [prefix_matches, GUINT16_FROM_LE, checksum_digest_prefix, List.take,
      load_native, beq_iff_eq, List.getD_cons_zero, List.getD_cons_succ]
    omega

/-- Witness for C2: the prefix "0000" and a digest of 32 zero bytes. -/
theorem prefix_match_in_bytes_witness :
    prefix_matches (hash_prefix_num [48, 48, 48, 48]) (List.replicate 32 0) = true
      ↔ (List.replicate 32 0).getD 0 0 = 16 * 0 + 0
        ∧ (List.replicate 32 0).getD 1 0 = 16 * 0 + 0 :=
  prefix_match_in_bytes 48 48 48 48 0 0 0 0 (List.replicate 32 0) (by decide) (by decide)
    (by decide) (by decide) (by decide) (by decide)

/-! ## Partition of the nonce space -/

theorem partition_total_le (P : Nat) : P * nonce_partition_size P ≤ 2 ^ 32 - 1 := by
  unfold nonce_partition_size G_MAXUINT
  exact Nat.mul_div_le _ _

theorem nonce_from_eq (P i : Nat) (hi : i < P) :
    nonce_from P i = i * nonce_partition_size P := by
  unfold nonce_from
  apply Nat.mod_eq_of_lt
  have h1 : i * nonce_partition_size P ≤ P * nonce_partition_size P :=
    Nat.mul_le_mul_right _ (le_of_lt hi)
  have h2 := partition_total_le P
  omega

theorem nonce_to_eq (P i : Nat) (hi : i < P) :
    nonce_to P i = (i + 1) * nonce_partition_size P := by
  unfold nonce_to
  have hs : i * nonce_partition_size P + nonce_partition_size P
      = (i + 1) * nonce_partition_size P := by ring
  rw [nonce_from_eq P i hi, hs]
  apply Nat.mod_eq_of_lt
  have h1 : (i + 1) * nonce_partition_size P ≤ P * nonce_partition_size P :=
    Nat.mul_le_mul_right _ hi
  have h2 := partition_total_le P
  omega

/-- C3, as the code has it: for every worker count `P`, the union of the
scanned ranges `[nonce_from i, nonce_to i)` over the workers `i < P` is exactly
the initial segment `[0, P * (G_MAXUINT / P))` of the nonce space, without a
gap inside it, and that segment ends at or before `2 ^ 32 - 1`. -/
theorem partitions_cover_initial_segment (P n : Nat) :
    ((∃ i, i < P ∧ nonce_from P i ≤ n ∧ n < nonce_to P i)
        ↔ n < P * (G_MAXUINT / P))
      ∧ P * (G_MAXUINT / P) ≤ 2 ^ 32 - 1 := by
  refine ⟨⟨?_, ?_⟩, partition_total_le P⟩
  · rintro ⟨i, hi, _, h2⟩
    rw [nonce_to_eq P i hi] at h2
    exact lt_of_lt_of_le h2 (Nat.mul_le_mul_right _ hi)
  · intro hn
    have hpos : 0 < G_MAXUINT / P := by
      rcases Nat.eq_zero_or_pos (G_MAXUINT / P) with h0 | h0
      · rw [h0] at hn; simp at hn
      · exact h0
    have hi : n / (G_MAXUINT / P) < P := by
      rw [Nat.div_lt_iff_lt_mul hpos]
      exact hn
    refine ⟨n / (G_MAXUINT / P), hi, ?_, ?_⟩
    · rw [nonce_from_eq P _ hi]
      exact Nat.div_mul_le_self n _
    · rw [nonce_to_eq P _ hi]
      have := Nat.lt_mul_div_succ n hpos
      rw [Nat.mul_comm] at this
      exact this

/-- C3 fails as stated: with one worker the nonce `2 ^ 32 - 1` lies in
`[0, 2 ^ 32)` but in no scanned range. -/
theorem partitions_miss_last_nonce :
    4294967295 < 2 ^ 32
      ∧ ¬ ∃ i, i < 1 ∧ nonce_from 1 i ≤ 4294967295 ∧ 4294967295 < nonce_to 1 i := by
  refine ⟨by norm_num, ?_⟩
  rintro ⟨i, hi, _, h2⟩
  obtain rfl : i = 0 := by omega
  revert h2
  decide

/-! ## The seed of one nonce -/

theorem SHA256_Final_length (H : List Nat → List Nat) (ctx : SHA256_CTX) :
    (SHA256_Final H ctx).length = 32 := by
  simp [SHA256_Final]

theorem SHA256_Final_byte (H : List Nat → List Nat) (ctx : SHA256_CTX) :
    ∀ b ∈ SHA256_Final H ctx, b < 256 := by
  intro b hb
  simp only [SHA256_Final, List.mem_map] at hb
  obtain ⟨k, _, rfl⟩ := hb
  exact Nat.mod_lt _ (by norm_num)

theorem load_native_eight (digest : List Nat) (hlen : 8 ≤ digest.length) :
    load_native (digest.take 8) = le64_of_digest digest := by
  match digest, hlen with
  | x0 :: x1 :: x2 :: x3 :: x4 :: x5 :: x6 :: x7 :: rest, _ =>
    simp only [List.take, load_native, le64_of_digest, Finset.sum_range_succ,
      Finset.sum_range_zero, List.getD_cons_zero, List.getD_cons_succ]
    ring

theorem nonce_seed_eq (H : List Nat → List Nat) (last_solution_hash : List Nat)
    (nonce : Nat) :
    nonce_seed H last_solution_hash nonce
      = le64_of_digest
          (SHA256_Final H (last_solution_hash.take 64 ++ fmt_unsigned 32 nonce)) := by
  unfold nonce_seed GUINT64_FROM_LE checksum_digest_seed
  rw [update_snprintf_32, load_native_eight _ (by rw [SHA256_Final_length]; norm_num)]
  simp [SHA256_Update, SHA256_Init]

/-- C7: for every nonce `n` below `2 ^ 32` and every `last_solution_hash` of at
least 64 bytes, the seed passed to `cscoin_mt64_set_seed` is the sum over
`k < 8` of `digest1[k] * 256 ^ k`, where `digest1` is the digest of the first 64
bytes of `last_solution_hash` (exactly 64 bytes of raw text) followed by the
`%u` text of `n`, which is the shortest decimal text of `n`. -/
theorem seed_is_little_endian_digest_head (H : List Nat → List Nat)
    (last_solution_hash : List Nat) (n : Nat) (hn : n < 2 ^ 32)
    (hlen : 64 ≤ last_solution_hash.length) :
    nonce_seed H last_solution_hash n
        = ∑ k in Finset.range 8,
            (SHA256_Final H (last_solution_hash.take 64 ++ fmt_unsigned 32 n)).getD k 0
              * 256 ^ k
      ∧ (last_solution_hash.take 64).length = 64
      ∧ ShortestDecimal n (fmt_unsigned 32 n) := by
  refine ⟨?_, ?_, fmt_unsigned_32_shortest n hn⟩
  · rw [nonce_seed_eq]; rfl
  · rw [List.length_take]; omega

/-- Witness for C7: SHA-256, a `last_solution_hash` of 64 characters `'0'`,
nonce 7. -/
theorem seed_is_little_endian_digest_head_witness :
    (7 < 2 ^ 32 ∧ 64 ≤ zero_hash.length)
      ∧ (nonce_seed sha256 zero_hash 7
          = ∑ k in Finset.range 8,
              (SHA256_Final sha256 (zero_hash.take 64 ++ fmt_unsigned 32 7)).getD k 0
                * 256 ^ k
        ∧ (zero_hash.take 64).length = 64
        ∧ ShortestDecimal 7 (fmt_unsigned 32 7)) :=
  ⟨⟨by norm_num, by decide⟩,
    seed_is_little_endian_digest_head sha256 zero_hash 7 (by norm_num) (by decide)⟩

/-! ## Runs of the search -/

theorem search_run_nil {σ : Type} (E : Search σ) (s : SearchState σ) :
    search_run E s [] = s := rfl

theorem search_run_cons {σ : Type} (E : Search σ) (s : SearchState σ) (e : Event)
    (sched : List Event) :
    search_run E s (e :: sched) = search_run E (search_step E s e) sched := rfl

/-- A property that holds initially and is kept by every event holds after
every schedule. -/
theorem search_run_invariant {σ : Type} (E : Search σ) (Inv : SearchState σ → Prop)
    (hstep : ∀ s e, Inv s → Inv (search_step E s e)) :
    ∀ (sched : List Event) (s : SearchState σ), Inv s → Inv (search_run E s sched) := by
  intro sched
  induction sched with
  | nil => intro s hs; exact hs
  | cons e rest ih => intro s hs; exact ih _ (hstep s e hs)

/-- The possible effects of a tick of thread `t` whose private state is `w`. -/
theorem worker_step_cases {σ : Type} (E : Search σ) (s : SearchState σ) (t : Nat)
    (w : Worker σ) :
    (w.pc = PC.exited ∧ worker_step E s t w = s)
    ∨ (w.pc = PC.loop_head ∧ (¬ w.nonce < w.nonce_to ∨ s.done = true ∨ s.cancelled = true)
        ∧ worker_step E s t w
            = { s with workers := s.workers.set t { w with pc := PC.exited } })
    ∨ (w.pc = PC.loop_head ∧ w.nonce < w.nonce_to ∧ s.done = false ∧ s.cancelled = false
        ∧ worker_step E s t w
            = { s with workers := s.workers.set t { w with pc := PC.loop_body } })
    ∨ (w.pc = PC.loop_body
        ∧ prefix_matches E.target (nonce_digest E.H E.M E.challenge_type
            E.last_solution_hash E.parameters w.mt64 w.nonce).2.1 = false
        ∧ worker_step E s t w
            = { s with
                workers := s.workers.set t
                  { w with
                    mt64 := (nonce_digest E.H E.M E.challenge_type E.last_solution_hash
                      E.parameters w.mt64 w.nonce).1
                    nonce := (w.nonce + 1) % 2 ^ 32
                    pc := PC.loop_head }
                scanned := w.nonce :: s.scanned
                criticals :=
                  if (nonce_digest E.H E.M E.challenge_type E.last_solution_hash
                      E.parameters w.mt64 w.nonce).2.2 then s.criticals + 1
                  else s.criticals })
    ∨ (w.pc = PC.loop_body
        ∧ prefix_matches E.target (nonce_digest E.H E.M E.challenge_type
            E.last_solution_hash E.parameters w.mt64 w.nonce).2.1 = true
        ∧ worker_step E s t w
            = { workers := s.workers.set t
                  { w with
                    mt64 := (nonce_digest E.H E.M E.challenge_type E.last_solution_hash
                      E.parameters w.mt64 w.nonce).1
                    nonce := (w.nonce + 1) % 2 ^ 32
                    pc := PC.loop_head }
                done := true
                ret := some (g_strdup (g_snprintf 32 32 w.nonce))
                cancelled := s.cancelled
                scanned := w.nonce :: s.scanned
                writes := (t, w.nonce) :: s.writes
                criticals :=
                  if (nonce_digest E.H E.M E.challenge_type E.last_solution_hash
                      E.parameters w.mt64 w.nonce).2.2 then s.criticals + 1
                  else s.criticals }) := by
  cases hpc : w.pc with
  | exited => left; simp [worker_step, hpc]
  | loop_head =>
    right
    by_cases h1 : w.nonce < w.nonce_to
    · by_cases h2 : (s.done || s.cancelled) = true
      · left
        refine ⟨rfl, ?_, ?_⟩
        · right; simpa using h2
        · simp only [worker_step, hpc, if_pos h1, if_pos h2]
      · right; left
        have h3 : s.done = false ∧ s.cancelled = false := by simpa using h2
        refine ⟨rfl, h1, h3.1, h3.2, ?_⟩
        simp only [worker_step, hpc, if_pos h1, if_neg h2]
    · left
      refine ⟨rfl, Or.inl h1, ?_⟩
      simp only [worker_step, hpc, if_neg h1]
  | loop_body =>
    right; right; right
    by_cases hm : prefix_matches E.target (nonce_digest E.H E.M E.challenge_type
        E.last_solution_hash E.parameters w.mt64 w.nonce).2.1 = true
    · right
      refine ⟨rfl, hm, ?_⟩
      simp only [worker_step, hpc, if_pos hm]
    · left
      refine ⟨rfl, by simpa using hm, ?_⟩
      simp only [worker_step, hpc, if_neg hm]

theorem search_step_tick {σ : Type} (E : Search σ) (s : SearchState σ) (t : Nat) :
    (s.workers[t]? = none ∧ search_step E s (Event.tick t) = s)
    ∨ ∃ w, s.workers[t]? = some w ∧ search_step E s (Event.tick t) = worker_step E s t w := by
  cases h : s.workers[t]? with
  | none => left; simp [search_step, List.get?_eq_getElem?, h]
  | some w => right; exact ⟨w, rfl, by simp [search_step, List.get?_eq_getElem?, h]⟩

theorem search_step_workers {σ : Type} (E : Search σ) (s : SearchState σ) (e : Event) :
    (search_step E s e).workers = s.workers
    ∨ ∃ t w w1, e = Event.tick t ∧ s.workers[t]? = some w ∧ w.pc ≠ PC.exited
        ∧ w1.nonce_to = w.nonce_to ∧ (search_step E s e).workers = s.workers.set t w1 := by
  cases e with
  | cancel => left; rfl
  | tick t =>
    rcases search_step_tick E s t with ⟨_, h⟩ | ⟨w, hw, h⟩
    · left; rw [h]
    · rw [h]
      rcases worker_step_cases E s t w with ⟨_, h1⟩ | ⟨hpc, _, h1⟩ | ⟨hpc, _, _, _, h1⟩
        | ⟨hpc, _, h1⟩ | ⟨hpc, _, h1⟩
      · left; rw [h1]
      all_goals
        right
        refine ⟨t, w, _, rfl, hw, by rw [hpc]; decide, ?_, by rw [h1]⟩
        rfl

theorem search_step_workers_length {σ : Type} (E : Search σ) (s : SearchState σ)
    (e : Event) : (search_step E s e).workers.length = s.workers.length := by
  rcases search_step_workers E s e with h | ⟨t, w, w1, _, _, _, _, h⟩
  · rw [h]
  · rw [h, List.length_set]

theorem search_step_exited_stays {σ : Type} (E : Search σ) (s : SearchState σ) (e : Event)
    (t : Nat) (w : Worker σ) (hw : s.workers[t]? = some w) (hpc : w.pc = PC.exited) :
    (search_step E s e).workers[t]? = some w := by
  rcases search_step_workers E s e with h | ⟨t1, w0, w1, _, hw0, hne, _, h⟩
  · rw [h]; exact hw
  · rw [h]
    by_cases ht : t1 = t
    · subst ht
      rw [hw] at hw0
      injection hw0 with hw0
      subst hw0
      exact absurd hpc hne
    · rw [List.getElem?_set_ne ht]; exact hw

/-- Invariant of a call whose `GCancellable` is cancelled from the start. -/
theorem cancelled_invariant_step {σ : Type} (E : Search σ) (s : SearchState σ) (e : Event)
    (h : s.cancelled = true ∧ s.scanned = [] ∧ ∀ w ∈ s.workers, w.pc ≠ PC.loop_body) :
    (search_step E s e).cancelled = true ∧ (search_step E s e).scanned = []
      ∧ ∀ w ∈ (search_step E s e).workers, w.pc ≠ PC.loop_body := by
  obtain ⟨hc, hs, hw⟩ := h
  cases e with
  | cancel => exact ⟨rfl, hs, hw⟩
  | tick t =>
    rcases search_step_tick E s t with ⟨_, h⟩ | ⟨w, hwt, h⟩
    · rw [h]; exact ⟨hc, hs, hw⟩
    · have hmem : w ∈ s.workers := List.getElem?_mem hwt
      rw [h]
      rcases worker_step_cases E s t w with ⟨_, h1⟩ | ⟨hpc, _, h1⟩ | ⟨hpc, _, _, hcf, h1⟩
        | ⟨hpc, _, h1⟩ | ⟨hpc, _, h1⟩
      · rw [h1]; exact ⟨hc, hs, hw⟩
      · rw [h1]
        refine ⟨hc, hs, ?_⟩
        intro w2 hw2
        rcases List.mem_or_eq_of_mem_set hw2 with h2 | rfl
        · exact hw w2 h2
        · simp
      · rw [hc] at hcf; exact absurd hcf (by decide)
      · exact absurd hpc (hw w hmem)
      · exact absurd hpc (hw w hmem)

theorem cancelled_tick_exits {σ : Type} (E : Search σ) (s : SearchState σ) (t : Nat)
    (h : s.cancelled = true ∧ s.scanned = [] ∧ ∀ w ∈ s.workers, w.pc ≠ PC.loop_body)
    (w : Worker σ) (hwt : s.workers[t]? = some w) :
    ∃ w1, (search_step E s (Event.tick t)).workers[t]? = some w1 ∧ w1.pc = PC.exited := by
  obtain ⟨hc, _, hw⟩ := h
  have hmem : w ∈ s.workers := List.getElem?_mem hwt
  have hlt : t < s.workers.length := by
    rcases List.getElem?_eq_some_iff.mp hwt with ⟨hlt, _⟩
    exact hlt
  rcases search_step_tick E s t with ⟨hn, _⟩ | ⟨w0, hw0, h⟩
  · rw [hn] at hwt; exact absurd hwt (by simp)
  · rw [hwt] at hw0
    injection hw0 with hw0
    subst hw0
    rw [h]
    rcases worker_step_cases E s t w with ⟨hpc, h1⟩ | ⟨hpc, _, h1⟩ | ⟨hpc, _, _, hcf, h1⟩
      | ⟨hpc, _, h1⟩ | ⟨hpc, _, h1⟩
    · rw [h1]; exact ⟨w, hwt, hpc⟩
    · rw [h1]
      exact ⟨{ w with pc := PC.exited }, List.getElem?_set_self hlt, rfl⟩
    · rw [hc] at hcf; exact absurd hcf (by decide)
    · exact absurd hpc (hw w hmem)
    · exact absurd hpc (hw w hmem)

theorem cancelled_run_exits {σ : Type} (E : Search σ) :
    ∀ (sched : List Event) (s : SearchState σ),
      (s.cancelled = true ∧ s.scanned = [] ∧ ∀ w ∈ s.workers, w.pc ≠ PC.loop_body) →
      (∀ t, t < s.workers.length →
        Event.tick t ∈ sched ∨ ∃ w, s.workers[t]? = some w ∧ w.pc = PC.exited) →
      ∀ w ∈ (search_run E s sched).workers, w.pc = PC.exited := by
  intro sched
  induction sched with
  | nil =>
    intro s _ hall w hw
    rw [search_run_nil] at hw
    obtain ⟨t, ht, hwt⟩ := List.getElem_of_mem hw
    rcases hall t ht with h | ⟨w1, hw1, hpc⟩
    · simp at h
    · rw [List.getElem?_eq_getElem ht, hwt] at hw1
      injection hw1 with hw1
      rw [hw1]; exact hpc
  | cons e rest ih =>
    intro s hinv hall
    rw [search_run_cons]
    apply ih _ (cancelled_invariant_step E s e hinv)
    intro t ht
    rw [search_step_workers_length] at ht
    rcases hall t ht with h | ⟨w1, hw1, hpc⟩
    · rcases List.mem_cons.mp h with h | h
      · right
        rw [← h]
        exact cancelled_tick_exits E s t hinv _ (List.getElem?_eq_getElem ht)
      · left; exact h
    · right
      exact ⟨w1, search_step_exited_stays E s e t w1 hw1 hpc, hpc⟩

theorem search_init_workers_length {σ : Type} (M : CSCoinMT64Ops σ) (P : Nat) (c : Bool) :
    (search_init M P c).workers.length = P := by
  simp [search_init]

theorem search_init_cancelled_invariant {σ : Type} (M : CSCoinMT64Ops σ) (P : Nat) :
    (search_init M P true).cancelled = true ∧ (search_init M P true).scanned = []
      ∧ ∀ w ∈ (search_init M P true).workers, w.pc ≠ PC.loop_body := by
  refine ⟨rfl, rfl, ?_⟩
  intro w hw
  simp only [search_init, List.mem_map] at hw
  obtain ⟨t, _, rfl⟩ := hw
  simp [worker_init]

/-- C10: if the `GCancellable` is already cancelled at the call, then under
every schedule no nonce is ever hashed and any result is `NULL` with the
cancelled error set; and every schedule that lets each of the `num_threads`
threads run at least once ends the call with exactly that result. -/
theorem cancelled_before_start {σ : Type} (H : List Nat → List Nat) (M : CSCoinMT64Ops σ)
    (num_threads : Nat) (challenge_id : Int) (challenge_type : CSCoinChallengeType)
    (last_solution_hash : List Nat) ( hash_prefix : List Nat)
    (parameters : CSCoinChallengeParameters) (sched : List Event) :
    (solve_state H M num_threads challenge_type last_solution_hash hash_prefix parameters
        true sched).scanned = []
      ∧ (∀ r, cscoin_solve_challenge H M num_threads challenge_id challenge_type
            last_solution_hash hash_prefix parameters true sched = some r →
          r = { ret := none, error := some GIOErrorEnum.G_IO_ERROR_CANCELLED })
      ∧ ((∀ t, t < num_threads → Event.tick t ∈ sched) →
          cscoin_solve_challenge H M num_threads challenge_id challenge_type
            last_solution_hash hash_prefix parameters true sched
            = some { ret := none, error := some GIOErrorEnum.G_IO_ERROR_CANCELLED }) := by
  have hinv := search_run_invariant
    (solve_search H M challenge_type last_solution_hash hash_prefix parameters)
    (fun s => s.cancelled = true ∧ s.scanned = [] ∧ ∀ w ∈ s.workers, w.pc ≠ PC.loop_body)
    (fun s e h => cancelled_invariant_step _ s e h) sched _
    (search_init_cancelled_invariant M num_threads)
  have hret : solve_return (solve_state H M num_threads challenge_type last_solution_hash
      hash_prefix parameters true sched)
      = { ret := none, error := some GIOErrorEnum.G_IO_ERROR_CANCELLED } := by
    unfold solve_return solve_state
    rw [if_pos hinv.1]
  refine ⟨hinv.2.1, ?_, ?_⟩
  · intro r hr
    unfold cscoin_solve_challenge at hr
    split_ifs at hr
    rw [hret] at hr
    injection hr with hr
    exact hr.symm
  · intro hfair
    have hex := cancelled_run_exits
      (solve_search H M challenge_type last_solution_hash hash_prefix parameters) sched
      (search_init M num_threads true) (search_init_cancelled_invariant M num_threads)
      (fun t ht => Or.inl (hfair t (by rwa [search_init_workers_length] at ht)))
    unfold cscoin_solve_challenge
    rw [if_pos, hret]
    rw [List.all_eq_true]
    intro w hw
    simp [hex w hw]

/-- Witness for C10: two threads, each run once, on a handle cancelled from
the start. -/
theorem cancelled_before_start_witness :
    (∀ t, t < 2 → Event.tick t ∈ [Event.tick 0, Event.tick 1])
      ∧ cscoin_solve_challenge sha256 lcg64 2 0 CSCoinChallengeType.SORTED_LIST zero_hash
          (cstr "0000") three_elements true [Event.tick 0, Event.tick 1]
          = some { ret := none, error := some GIOErrorEnum.G_IO_ERROR_CANCELLED } :=
  ⟨by decide,
    (cancelled_before_start sha256 lcg64 2 0 CSCoinChallengeType.SORTED_LIST zero_hash
      (cstr "0000") three_elements [Event.tick 0, Event.tick 1]).2.2 (by decide)⟩

/-! ## Soundness of a returned nonce -/

theorem nonce_digest_eq_pipeline {σ : Type} (H : List Nat → List Nat) (M : CSCoinMT64Ops σ)
    (hreseed : ∀ (mt64 : σ) (seed : Nat), M.set_seed mt64 seed = M.set_seed M.init seed)
    (challenge_type : CSCoinChallengeType) (last_solution_hash : List Nat)
    (parameters : CSCoinChallengeParameters) (mt64 : σ) (nonce : Nat) :
    (nonce_digest H M challenge_type last_solution_hash parameters mt64 nonce).2.1
      = pipeline_digest2 H M challenge_type last_solution_hash parameters
          (fmt_unsigned 32 nonce) := by
  unfold nonce_digest pipeline_digest2
  simp only
  rw [hreseed mt64, nonce_seed_eq]

theorem found_invariant_step {σ : Type} (E : Search σ)
    (hreseed : ∀ (mt64 : σ) (seed : Nat), E.M.set_seed mt64 seed = E.M.set_seed E.M.init seed)
    (s : SearchState σ) (e : Event)
    (h : (∀ w ∈ s.workers, w.nonce < 2 ^ 32)
      ∧ ∀ r, s.ret = some r → ∃ n, n ∈ s.scanned ∧ n < 2 ^ 32 ∧ r = fmt_unsigned 32 n
          ∧ prefix_matches E.target (pipeline_digest2 E.H E.M E.challenge_type
              E.last_solution_hash E.parameters r) = true) :
    (∀ w ∈ (search_step E s e).workers, w.nonce < 2 ^ 32)
      ∧ ∀ r, (search_step E s e).ret = some r →
          ∃ n, n ∈ (search_step E s e).scanned ∧ n < 2 ^ 32 ∧ r = fmt_unsigned 32 n
            ∧ prefix_matches E.target (pipeline_digest2 E.H E.M E.challenge_type
                E.last_solution_hash E.parameters r) = true := by
  obtain ⟨hw, hr⟩ := h
  cases e with
  | cancel => exact ⟨hw, hr⟩
  | tick t =>
    rcases search_step_tick E s t with ⟨_, h⟩ | ⟨w, hwt, h⟩
    · rw [h]; exact ⟨hw, hr⟩
    · have hmem : w ∈ s.workers := List.getElem?_mem hwt
      have hwn := hw w hmem
      rw [h]
      rcases worker_step_cases E s t w with ⟨_, h1⟩ | ⟨_, _, h1⟩ | ⟨_, _, _, _, h1⟩
        | ⟨_, _, h1⟩ | ⟨_, hm, h1⟩
      · rw [h1]; exact ⟨hw, hr⟩
      · rw [h1]
        refine ⟨?_, hr⟩
        intro w2 hw2
        rcases List.mem_or_eq_of_mem_set hw2 with h2 | rfl
        · exact hw w2 h2
        · exact hwn
      · rw [h1]
        refine ⟨?_, hr⟩
        intro w2 hw2
        rcases List.mem_or_eq_of_mem_set hw2 with h2 | rfl
        · exact hw w2 h2
        · exact hwn
      · rw [h1]
        refine ⟨?_, ?_⟩
        · intro w2 hw2
          rcases List.mem_or_eq_of_mem_set hw2 with h2 | rfl
          · exact hw w2 h2
          · exact Nat.mod_lt _ (by norm_num)
        · intro r hrr
          obtain ⟨n, hn, hrest⟩ := hr r hrr
          exact ⟨n, List.mem_cons_of_mem _ hn, hrest⟩
      · rw [h1]
        refine ⟨?_, ?_⟩
        · intro w2 hw2
          rcases List.mem_or_eq_of_mem_set hw2 with h2 | rfl
          · exact hw w2 h2
          · exact Nat.mod_lt _ (by norm_num)
        · intro r hrr
          simp only [Option.some.injEq] at hrr
          subst hrr
          refine ⟨w.nonce, List.mem_cons_self _ _, hwn, g_strdup_snprintf_32 _, ?_⟩
          rw [g_strdup_snprintf_32, ← nonce_digest_eq_pipeline E.H E.M hreseed
            E.challenge_type E.last_solution_hash E.parameters w.mt64 w.nonce]
          exact hm

theorem nonce_from_lt (P i : Nat) : nonce_from P i < 2 ^ 32 :=
  Nat.mod_lt _ (by norm_num)

/-- C1: for every digest function, every generator whose reseeding does not
depend on the previous state, every challenge kind (both list kinds among
them), every input and every schedule: if `cscoin_solve_challenge` returns a
string `s`, then `s` is the shortest decimal text of a nonce `n` that was
hashed during the call, it is the very text that was hashed, and the pipeline
recomputed for `s` on a fresh generator gives a second digest whose first two
bytes match the parsed target. -/
theorem found_is_sound {σ : Type} (H : List Nat → List Nat) (M : CSCoinMT64Ops σ)
    (hreseed : ∀ (mt64 : σ) (seed : Nat), M.set_seed mt64 seed = M.set_seed M.init seed)
    (num_threads : Nat) (challenge_id : Int) (challenge_type : CSCoinChallengeType)
    (last_solution_hash : List Nat) ( hash_prefix : List Nat)
    (parameters : CSCoinChallengeParameters) (cancelled : Bool) (sched : List Event)
    (s : List Nat) (err : Option GIOErrorEnum)
    (hret : cscoin_solve_challenge H M num_threads challenge_id challenge_type
      last_solution_hash hash_prefix parameters cancelled sched
        = some { ret := some s, error := err }) :
    ∃ n, n ∈ (solve_state H M num_threads challenge_type last_solution_hash hash_prefix
          parameters cancelled sched).scanned
      ∧ n < 2 ^ 32 ∧ ShortestDecimal n s ∧ s = g_strdup (g_snprintf 32 32 n)
      ∧ prefix_matches (hash_prefix_num hash_prefix)
          (pipeline_digest2 H M challenge_type last_solution_hash parameters s) = true := by
  have hinv := search_run_invariant
    (solve_search H M challenge_type last_solution_hash hash_prefix parameters)
    (fun st => (∀ w ∈ st.workers, w.nonce < 2 ^ 32)
      ∧ ∀ r, st.ret = some r → ∃ n, n ∈ st.scanned ∧ n < 2 ^ 32 ∧ r = fmt_unsigned 32 n
          ∧ prefix_matches (hash_prefix_num hash_prefix) (pipeline_digest2 H M challenge_type
              last_solution_hash parameters r) = true)
    (fun st e h => found_invariant_step
      (solve_search H M challenge_type last_solution_hash hash_prefix parameters)
      hreseed st e h) sched (search_init M num_threads cancelled)
    ⟨by
      intro w hw
      simp only [search_init, List.mem_map] at hw
      obtain ⟨t, _, rfl⟩ := hw
      exact nonce_from_lt _ _,
     by intro r hr; simp [search_init] at hr⟩
  unfold cscoin_solve_challenge at hret
  split_ifs at hret
  simp only [Option.some.injEq] at hret
  have hs : (solve_state H M num_threads challenge_type last_solution_hash hash_prefix
      parameters cancelled sched).ret = some s := by
    unfold solve_return at hret
    split_ifs at hret
    · simp at hret
    · simp only [SolveResult.mk.injEq] at hret
      exact hret.1
  obtain ⟨n, hn, hlt, hrs, hm⟩ := hinv.2 s hs
  refine ⟨n, hn, hlt, ?_, ?_, hm⟩
  · rw [hrs]; exact fmt_unsigned_32_shortest n hlt
  · rw [hrs, g_strdup_snprintf_32]

set_option maxRecDepth 100000 in
/-- Witness for C1: SHA-256, the stand-in generator, one thread, a sorted list
of three elements, 64 characters `'0'` as previous hash and the prefix "75bd":
the first nonce, 0, matches and "0" is returned. -/
theorem found_is_sound_witness :
    cscoin_solve_challenge sha256 lcg64 1 0 CSCoinChallengeType.SORTED_LIST zero_hash
        (cstr "75bd") three_elements false [Event.tick 0, Event.tick 0, Event.tick 0]
        = some { ret := some (cstr "0"), error := none }
      ∧ ∃ n, n ∈ (solve_state sha256 lcg64 1 CSCoinChallengeType.SORTED_LIST zero_hash
            (cstr "75bd") three_elements false
            [Event.tick 0, Event.tick 0, Event.tick 0]).scanned
        ∧ n < 2 ^ 32 ∧ ShortestDecimal n (cstr "0")
        ∧ cstr "0" = g_strdup (g_snprintf 32 32 n)
        ∧ prefix_matches (hash_prefix_num (cstr "75bd"))
            (pipeline_digest2 sha256 lcg64 CSCoinChallengeType.SORTED_LIST zero_hash
              three_elements (cstr "0")) = true :=
  ⟨by decide,
    found_is_sound sha256 lcg64 (fun _ _ => rfl) 1 0 CSCoinChallengeType.SORTED_LIST
      zero_hash (cstr "75bd") three_elements false
      [Event.tick 0, Event.tick 0, Event.tick 0] (cstr "0") none (by decide)⟩

/-! ## Unrecognised challenge kind -/

theorem search_step_tick_cancelled {σ : Type} (E : Search σ) (s : SearchState σ) (t : Nat) :
    (search_step E s (Event.tick t)).cancelled = s.cancelled := by
  rcases search_step_tick E s t with ⟨_, h⟩ | ⟨w, _, h⟩
  · rw [h]
  · rw [h]
    rcases worker_step_cases E s t w with ⟨_, h1⟩ | ⟨_, _, h1⟩ | ⟨_, _, _, _, h1⟩
      | ⟨_, _, h1⟩ | ⟨_, _, h1⟩ <;> rw [h1]

theorem search_run_not_cancelled {σ : Type} (E : Search σ) :
    ∀ (sched : List Event) (s : SearchState σ), s.cancelled = false →
      Event.cancel ∉ sched → (search_run E s sched).cancelled = false := by
  intro sched
  induction sched with
  | nil => intro s hs _; exact hs
  | cons e rest ih =>
    intro s hs hn
    rw [search_run_cons]
    apply ih
    · cases e with
      | cancel => simp at hn
      | tick t => rw [search_step_tick_cancelled]; exact hs
    · intro h; exact hn (List.mem_cons_of_mem _ h)

theorem search_run_append {σ : Type} (E : Search σ) (s : SearchState σ)
    (a b : List Event) : search_run E s (a ++ b) = search_run E (search_run E s a) b := by
  simp [search_run, List.foldl_append]

theorem unknown_criticals_step {σ : Type} (E : Search σ) (v : Int)
    (hE : E.challenge_type = CSCoinChallengeType.UNKNOWN v) (s : SearchState σ) (e : Event)
    (h : s.criticals = s.scanned.length) :
    (search_step E s e).criticals = (search_step E s e).scanned.length := by
  have hlog : ∀ (mt64 : σ) (n : Nat), (nonce_digest E.H E.M E.challenge_type
      E.last_solution_hash E.parameters mt64 n).2.2 = true := by
    intro mt64 n; rw [hE]; rfl
  cases e with
  | cancel => exact h
  | tick t =>
    rcases search_step_tick E s t with ⟨_, h0⟩ | ⟨w, _, h0⟩
    · rw [h0]; exact h
    · rw [h0]
      rcases worker_step_cases E s t w with ⟨_, h1⟩ | ⟨_, _, h1⟩ | ⟨_, _, _, _, h1⟩
        | ⟨_, _, h1⟩ | ⟨_, _, h1⟩ <;> rw [h1]
      · exact h
      · exact h
      · exact h
      · simp [hlog, h]
      · simp [hlog, h]

/-- C8, as the code has it: for a challenge type outside the three known
ones the search is not aborted. Each hashed nonce runs no generator (the
generator is only reseeded, nothing is fed to the second digest) and logs one
critical message; the thread then stands at the loop head with the next
nonce; and a call during which the handle is never cancelled sets no error. -/
theorem unknown_challenge_logs_and_continues {σ : Type} (H : List Nat → List Nat)
    (M : CSCoinMT64Ops σ) (num_threads : Nat) (challenge_id : Int) (v : Int)
    (last_solution_hash : List Nat) ( hash_prefix : List Nat)
    (parameters : CSCoinChallengeParameters) (cancelled : Bool) (sched : List Event) :
    (∀ (mt64 : σ) (n : Nat),
        nonce_digest H M (CSCoinChallengeType.UNKNOWN v) last_solution_hash parameters mt64 n
          = (M.set_seed mt64 (nonce_seed H last_solution_hash n),
             SHA256_Final H SHA256_Init, true))
      ∧ (solve_state H M num_threads (CSCoinChallengeType.UNKNOWN v) last_solution_hash
            hash_prefix parameters cancelled sched).criticals
          = (solve_state H M num_threads (CSCoinChallengeType.UNKNOWN v) last_solution_hash
            hash_prefix parameters cancelled sched).scanned.length
      ∧ (∀ (t : Nat) (w : Worker σ),
          (solve_state H M num_threads (CSCoinChallengeType.UNKNOWN v) last_solution_hash
            hash_prefix parameters cancelled sched).workers[t]? = some w →
          w.pc = PC.loop_body →
          ∃ w1, (solve_state H M num_threads (CSCoinChallengeType.UNKNOWN v)
              last_solution_hash hash_prefix parameters cancelled
              (sched ++ [Event.tick t])).workers[t]? = some w1
            ∧ w1.pc = PC.loop_head ∧ w1.nonce = (w.nonce + 1) % 2 ^ 32
            ∧ w1.nonce_to = w.nonce_to)
      ∧ (cancelled = false → Event.cancel ∉ sched →
          ∀ r, cscoin_solve_challenge H M num_threads challenge_id
              (CSCoinChallengeType.UNKNOWN v) last_solution_hash hash_prefix parameters
              cancelled sched = some r → r.error = none) := by
  refine ⟨fun _ _ => rfl, ?_, ?_, ?_⟩
  · exact search_run_invariant
      (solve_search H M (CSCoinChallengeType.UNKNOWN v) last_solution_hash hash_prefix
        parameters)
      (fun st => st.criticals = st.scanned.length)
      (fun st e h => unknown_criticals_step _ v rfl st e h) sched
      (search_init M num_threads cancelled) rfl
  · intro t w hw hpc
    unfold solve_state at hw ⊢
    rw [search_run_append]
    generalize search_run (solve_search H M (CSCoinChallengeType.UNKNOWN v)
      last_solution_hash hash_prefix parameters) (search_init M num_threads cancelled)
      sched = st at hw ⊢
    have hlt : t < st.workers.length := (List.getElem?_eq_some_iff.mp hw).1
    rw [search_run_cons, search_run_nil]
    rcases search_step_tick (solve_search H M (CSCoinChallengeType.UNKNOWN v)
      last_solution_hash hash_prefix parameters) st t with ⟨hn, _⟩ | ⟨w0, hw0, h⟩
    · rw [hn] at hw; exact absurd hw (by simp)
    · rw [hw] at hw0
      injection hw0 with hw0
      subst hw0
      rw [h]
      rcases worker_step_cases (solve_search H M (CSCoinChallengeType.UNKNOWN v)
        last_solution_hash hash_prefix parameters) st t w with
        ⟨hp, _⟩ | ⟨hp, _, _⟩ | ⟨hp, _, _, _, _⟩ | ⟨_, _, h1⟩ | ⟨_, _, h1⟩
      · rw [hpc] at hp; exact absurd hp (by decide)
      · rw [hpc] at hp; exact absurd hp (by decide)
      · rw [hpc] at hp; exact absurd hp (by decide)
      · rw [h1]
        exact ⟨_, List.getElem?_set_self hlt, rfl, rfl, rfl⟩
      · rw [h1]
        exact ⟨_, List.getElem?_set_self hlt, rfl, rfl, rfl⟩
  · intro hc hn r hr
    have hcf := search_run_not_cancelled
      (solve_search H M (CSCoinChallengeType.UNKNOWN v) last_solution_hash hash_prefix
        parameters) sched (search_init M num_threads cancelled) hc hn
    unfold cscoin_solve_challenge at hr
    split_ifs at hr
    simp only [Option.some.injEq] at hr
    rw [← hr]
    unfold solve_return solve_state
    rw [hcf]
    rfl

set_option maxRecDepth 100000 in
/-- Witness for C8 as the code has it: challenge type 99, one thread, the
handle never cancelled, the call ended by a match at nonce 0. -/
theorem unknown_challenge_logs_and_continues_witness :
    (false = false
        ∧ Event.cancel ∉ [Event.tick 0, Event.tick 0, Event.tick 0]
        ∧ cscoin_solve_challenge sha256 lcg64 1 0 (CSCoinChallengeType.UNKNOWN 99) zero_hash
            (cstr "e3b0") three_elements false [Event.tick 0, Event.tick 0, Event.tick 0]
            = some { ret := some (cstr "0"), error := none })
      ∧ (SolveResult.mk (some (cstr "0")) none).error = none :=
  ⟨⟨rfl, by decide, by decide⟩,
    (unknown_challenge_logs_and_continues sha256 lcg64 1 0 99 zero_hash (cstr "e3b0")
      three_elements false [Event.tick 0, Event.tick 0, Event.tick 0]).2.2.2 rfl
      (by decide) _ (by decide)⟩

set_option maxRecDepth 100000 in
/-- C8 fails as stated: with challenge type 99, which is none of the three
known ones, and the prefix "e3b0" (the first two bytes of the SHA-256 digest
of the empty input), one thread returns the nonce "0" and sets no error. -/
theorem unknown_challenge_returns_nonce :
    cscoin_solve_challenge sha256 lcg64 1 0 (CSCoinChallengeType.UNKNOWN 99) zero_hash
        (cstr "e3b0") three_elements false [Event.tick 0, Event.tick 0, Event.tick 0]
      = some { ret := some (cstr "0"), error := none } := by
  decide

/-! ## A `hash_prefix` without hexadecimal digits -/

theorem strtol16_no_digit (c : Nat) (rest : List Nat) (hd : hex_digit_value c = none)
    (hsp : isspace c = false) (hplus : c ≠ 43) (hminus : c ≠ 45) :
    strtol16 (c :: rest) = 0 := by
  have h48 : c ≠ 48 := by
    intro h; rw [h] at hd; simp [hex_digit_value] at hd
  have hacc : strtol_accum 0 (c :: rest) = 0 := by
    simp only [strtol_accum, hd]
  have hs3 : (match c :: rest with
      | 48 :: x :: d :: r =>
        if ((x == 120 || x == 88) && (hex_digit_value d).isSome) = true then d :: r
        else c :: rest
      | _ => c :: rest) = c :: rest := by
    split
    · rename_i x d r heq
      simp only [List.cons.injEq] at heq
      exact absurd heq.1 h48
    · rfl
  have hm2 : (some c == some 45) = false := by simp [hminus]
  have hp2 : (some c == some 43) = false := by simp [hplus]
  unfold strtol16
  simp only [List.dropWhile, hsp, List.head?_cons, hm2, hp2, Bool.or_self,
    Bool.false_eq_true, if_false]
  rw [hs3, hacc]
  simp

theorem hash_prefix_num_no_digit ( hash_prefix : List Nat)
    (h : hash_prefix = [] ∨ ∃ c rest, hash_prefix = c :: rest ∧ hex_digit_value c = none
      ∧ isspace c = false ∧ c ≠ 43 ∧ c ≠ 45) :
    hash_prefix_num hash_prefix = 0 := by
  have h0 : strtol16 hash_prefix = 0 := by
    rcases h with rfl | ⟨c, rest, rfl, hd, hsp, hplus, hminus⟩
    · decide
    · exact strtol16_no_digit c rest hd hsp hplus hminus
  unfold hash_prefix_num
  rw [h0]
  decide

/-- C9, as the code has it: `hash_prefix` is not validated. A `hash_prefix`
that is empty, or whose first byte is neither a hexadecimal digit nor white
space nor a sign (such as "zz"), is read as the number 0, and under every
schedule the call behaves exactly as for the prefix "0000": same hashed
nonces, same result. -/
theorem unparseable_prefix_searches_for_zero {σ : Type} (H : List Nat → List Nat)
    (M : CSCoinMT64Ops σ) (num_threads : Nat) (challenge_id : Int)
    (challenge_type : CSCoinChallengeType) (last_solution_hash : List Nat)
    ( hash_prefix : List Nat) (parameters : CSCoinChallengeParameters) (cancelled : Bool)
    (sched : List Event)
    (h : hash_prefix = [] ∨ ∃ c rest, hash_prefix = c :: rest ∧ hex_digit_value c = none
      ∧ isspace c = false ∧ c ≠ 43 ∧ c ≠ 45) :
    hash_prefix_num hash_prefix = 0
      ∧ (solve_state H M num_threads challenge_type last_solution_hash hash_prefix
            parameters cancelled sched).scanned
          = (solve_state H M num_threads challenge_type last_solution_hash (cstr "0000")
            parameters cancelled sched).scanned
      ∧ cscoin_solve_challenge H M num_threads challenge_id challenge_type
            last_solution_hash hash_prefix parameters cancelled sched
          = cscoin_solve_challenge H M num_threads challenge_id challenge_type
            last_solution_hash (cstr "0000") parameters cancelled sched := by
  have h0 := hash_prefix_num_no_digit hash_prefix h
  have h1 : hash_prefix_num (cstr "0000") = 0 := by decide
  have hE : solve_search H M challenge_type last_solution_hash hash_prefix parameters
      = solve_search H M challenge_type last_solution_hash (cstr "0000") parameters := by
    unfold solve_search
    rw [h0, h1]
  refine ⟨h0, ?_, ?_⟩
  · unfold solve_state; rw [hE]
  · unfold cscoin_solve_challenge solve_state; rw [hE]

set_option maxRecDepth 100000 in
/-- Witness for C9 as the code has it: the prefix "zz". -/
theorem unparseable_prefix_searches_for_zero_witness :
    (cstr "zz" = [] ∨ ∃ c rest, cstr "zz" = c :: rest ∧ hex_digit_value c = none
        ∧ isspace c = false ∧ c ≠ 43 ∧ c ≠ 45)
      ∧ hash_prefix_num (cstr "zz") = 0
      ∧ cscoin_solve_challenge sha256 lcg64 1 0 CSCoinChallengeType.SORTED_LIST zero_hash
            (cstr "zz") three_elements false [Event.tick 0, Event.tick 0]
          = cscoin_solve_challenge sha256 lcg64 1 0 CSCoinChallengeType.SORTED_LIST
            zero_hash (cstr "0000") three_elements false [Event.tick 0, Event.tick 0] :=
  ⟨Or.inr ⟨122, [122], by decide, by decide, by decide, by decide, by decide⟩,
    (unparseable_prefix_searches_for_zero sha256 lcg64 1 0 CSCoinChallengeType.SORTED_LIST
      zero_hash (cstr "zz") three_elements false [Event.tick 0, Event.tick 0]
      (Or.inr ⟨122, [122], by decide, by decide, by decide, by decide, by decide⟩)).1,
    (unparseable_prefix_searches_for_zero sha256 lcg64 1 0 CSCoinChallengeType.SORTED_LIST
      zero_hash (cstr "zz") three_elements false [Event.tick 0, Event.tick 0]
      (Or.inr ⟨122, [122], by decide, by decide, by decide, by decide, by decide⟩)).2.2⟩

set_option maxRecDepth 100000 in
/-- C9 fails as stated: with the prefix "zz", which is not hexadecimal, the
single thread hashes nonce 0 against the target 0 and stands at nonce 1 with
no error raised; the call has not failed before scanning. -/
theorem unparseable_prefix_is_scanned :
    hash_prefix_num (cstr "zz") = 0
      ∧ (solve_state sha256 lcg64 1 CSCoinChallengeType.SORTED_LIST zero_hash (cstr "zz")
          three_elements false [Event.tick 0, Event.tick 0]).scanned = [0]
      ∧ (solve_state sha256 lcg64 1 CSCoinChallengeType.SORTED_LIST zero_hash (cstr "zz")
          three_elements false [Event.tick 0, Event.tick 0]).workers.map
            (fun w => (w.nonce, w.pc)) = [(1, PC.loop_head)] := by
  decide

/-! ## Partition bounds -/

/-- C14: for every worker count `P` with `1 ≤ P ≤ 2 ^ 32 - 1` and every worker
index `i < P`: neither bound wraps around (the products and sums computed in
`guint` stay below `2 ^ 32`), `nonce_from i ≤ nonce_to i`, the range of worker
`i` ends where that of worker `i + 1` starts, the first range starts at 0, and
the ranges of two different workers have no nonce in common. -/
theorem partitions_contiguous_disjoint (P i : Nat) (hP1 : 1 ≤ P) (hP2 : P ≤ 2 ^ 32 - 1)
    (hi : i < P) :
    (i * nonce_partition_size P < 2 ^ 32
        ∧ i * nonce_partition_size P + nonce_partition_size P < 2 ^ 32
        ∧ nonce_from P i = i * nonce_partition_size P
        ∧ nonce_to P i = i * nonce_partition_size P + nonce_partition_size P)
      ∧ nonce_from P i ≤ nonce_to P i
      ∧ (i + 1 < P → nonce_to P i = nonce_from P (i + 1))
      ∧ nonce_from P 0 = 0
      ∧ 1 ≤ nonce_partition_size P
      ∧ ∀ j n, j < P → j ≠ i →
          ¬ ((nonce_from P i ≤ n ∧ n < nonce_to P i)
            ∧ (nonce_from P j ≤ n ∧ n < nonce_to P j)) := by
  have hfrom := nonce_from_eq P i hi
  have hto := nonce_to_eq P i hi
  have htot := partition_total_le P
  have hle : (i + 1) * nonce_partition_size P ≤ P * nonce_partition_size P :=
    Nat.mul_le_mul_right _ hi
  have hsucc : (i + 1) * nonce_partition_size P
      = i * nonce_partition_size P + nonce_partition_size P := by ring
  refine ⟨⟨by omega, by omega, hfrom, by omega⟩, by omega, ?_, ?_, ?_, ?_⟩
  · intro hi1
    rw [hto, nonce_from_eq P (i + 1) hi1]
  · rw [nonce_from_eq P 0 (by omega)]; simp
  · unfold nonce_partition_size G_MAXUINT
    exact (Nat.one_le_div_iff (by omega)).mpr hP2
  · intro j n hj hji ⟨⟨h1, h2⟩, ⟨h3, h4⟩⟩
    rw [nonce_from_eq P i hi] at h1
    rw [nonce_to_eq P i hi] at h2
    rw [nonce_from_eq P j hj] at h3
    rw [nonce_to_eq P j hj] at h4
    rcases Nat.lt_or_gt_of_ne hji with hlt | hgt
    · have : (j + 1) * nonce_partition_size P ≤ i * nonce_partition_size P :=
        Nat.mul_le_mul_right _ hlt
      omega
    · have : (i + 1) * nonce_partition_size P ≤ j * nonce_partition_size P :=
        Nat.mul_le_mul_right _ hgt
      omega

/-- Witness for C14: three workers, the middle one. -/
theorem partitions_contiguous_disjoint_witness :
    (1 ≤ 3 ∧ 3 ≤ 2 ^ 32 - 1 ∧ 1 < 3)
      ∧ nonce_from 3 1 ≤ nonce_to 3 1
      ∧ (1 + 1 < 3 → nonce_to 3 1 = nonce_from 3 (1 + 1))
      ∧ nonce_from 3 0 = 0 :=
  ⟨⟨by norm_num, by norm_num, by norm_num⟩,
    (partitions_contiguous_disjoint 3 1 (by norm_num) (by norm_num) (by norm_num)).2.1,
    (partitions_contiguous_disjoint 3 1 (by norm_num) (by norm_num) (by norm_num)).2.2.1,
    (partitions_contiguous_disjoint 3 1 (by norm_num) (by norm_num) (by norm_num)).2.2.2.1⟩

/-- C15, as the code has it: for every worker count `P` and worker index
`i < P`, `nonce_from` is `i * floor ((2 ^ 32 - 1) / P)` and `nonce_to` is
`nonce_from + floor ((2 ^ 32 - 1) / P)`; the dividend is `G_MAXUINT`, not
`2 ^ 32`. -/
theorem partition_bounds_formula (P i : Nat) (hi : i < P) :
    nonce_from P i = i * ((2 ^ 32 - 1) / P)
      ∧ nonce_to P i = nonce_from P i + (2 ^ 32 - 1) / P := by
  have hfrom := nonce_from_eq P i hi
  have hto := nonce_to_eq P i hi
  have hsize : nonce_partition_size P = (2 ^ 32 - 1) / P := rfl
  rw [hsize] at hfrom hto
  refine ⟨hfrom, ?_⟩
  rw [hto, hfrom]
  ring

/-- Witness for C15 as the code has it: two workers, the second one. -/
theorem partition_bounds_formula_witness :
    1 < 2
      ∧ nonce_from 2 1 = 1 * ((2 ^ 32 - 1) / 2)
      ∧ nonce_to 2 1 = nonce_from 2 1 + (2 ^ 32 - 1) / 2 :=
  ⟨by norm_num, partition_bounds_formula 2 1 (by norm_num)⟩

/-- C15 fails as stated: with two workers the second range starts at
2147483647, not at `1 * floor (2 ^ 32 / 2) = 2147483648`, and with one worker
the range ends at `2 ^ 32 - 1`, not at `0 + floor (2 ^ 32 / 1)`. -/
theorem partition_bounds_not_power_of_two_formula :
    nonce_from 2 1 = 2147483647 ∧ 1 * (2 ^ 32 / 2) = 2147483648
      ∧ nonce_from 2 1 ≠ 1 * (2 ^ 32 / 2)
      ∧ nonce_to 1 0 ≠ nonce_from 1 0 + 2 ^ 32 / 1 := by
  decide

/-! ## Shortest path: the generator, the tiles and the cost table -/

/-- C17: `solve_shortest_path_challenge` leaves the generator and the digest
context as they are (nothing is drawn, nothing is fed), so for challenge type
shortest path the second digest of every nonce, whatever the generator state,
`last_solution_hash`, `grid_size` and `nb_blockers`, is the digest of the empty
input, and the verdict of the comparison is the same for any two nonces. -/
theorem shortest_path_digest_ignores_nonce {σ : Type} (H : List Nat → List Nat)
    (M : CSCoinMT64Ops σ) (last_solution_hash last_solution_hash1 : List Nat)
    (parameters parameters1 : CSCoinChallengeParameters) (mt64 mt641 : σ)
    (checksum : SHA256_CTX) (grid_size nb_blockers : Int) (target n n1 : Nat) :
    solve_shortest_path_challenge M mt64 checksum grid_size nb_blockers = (mt64, checksum)
      ∧ (nonce_digest H M CSCoinChallengeType.SHORTEST_PATH last_solution_hash parameters
          mt64 n).2.1 = SHA256_Final H []
      ∧ (nonce_digest H M CSCoinChallengeType.SHORTEST_PATH last_solution_hash parameters
          mt64 n).2.1
          = (nonce_digest H M CSCoinChallengeType.SHORTEST_PATH last_solution_hash1
              parameters1 mt641 n1).2.1
      ∧ prefix_matches target (nonce_digest H M CSCoinChallengeType.SHORTEST_PATH
          last_solution_hash parameters mt64 n).2.1
          = prefix_matches target (nonce_digest H M CSCoinChallengeType.SHORTEST_PATH
              last_solution_hash1 parameters1 mt641 n1).2.1 :=
  ⟨rfl, rfl, rfl, rfl⟩

set_option maxRecDepth 100000 in
/-- C18: for every tile index `t` below 256 none of whose four 2-bit fields is
`EXIT` (binary 10) and every direction `d` below 8, the entry `[t][d]` of the
cost table is 0. -/
theorem cost_table_no_exit_is_zero (t d : Nat) (ht : t < 256) (hd : d < 8)
    (hexit : ∀ k, k < 4 → tile_field t k ≠ CSCOIN_SHORTEST_PATH_TILE_TYPE_EXIT) :
    tile_cost t d = 0 := by
  have key : ∀ t, t < 256 → ∀ d, d < 8 →
      (∀ k, k < 4 → tile_field t k ≠ CSCOIN_SHORTEST_PATH_TILE_TYPE_EXIT) →
      tile_cost t d = 0 := by
    decide
  exact key t ht d hd hexit

/-- Witness for C18: the tile of four frontier corners, direction 5. -/
theorem cost_table_no_exit_is_zero_witness :
    (255 < 256 ∧ 5 < 8
        ∧ ∀ k, k < 4 → tile_field 255 k ≠ CSCOIN_SHORTEST_PATH_TILE_TYPE_EXIT)
      ∧ tile_cost 255 5 = 0 :=
  ⟨⟨by decide, by decide, by decide⟩,
    cost_table_no_exit_is_zero 255 5 (by decide) (by decide) (by decide)⟩

set_option maxRecDepth 100000 in
/-- C19: for all tile kinds `a`, `b`, `c`, `d` among the four (values below 4),
the packed tile `cscoin_shortest_path_build_tile a b c d` is below 256 and its
2-bit fields at shifts 0, 2, 4 and 6 are `a`, `b`, `c` and `d`. Hence two
different quadruples give different tiles, and every index below 256 is the
tile of a quadruple. -/
theorem build_tile_round_trip (a b c d : Nat) (ha : a < 4) (hb : b < 4) (hc : c < 4)
    (hd : d < 4) :
    (cscoin_shortest_path_build_tile a b c d < 256
        ∧ (cscoin_shortest_path_build_tile a b c d >>> 0) &&& 3 = a
        ∧ (cscoin_shortest_path_build_tile a b c d >>> 2) &&& 3 = b
        ∧ (cscoin_shortest_path_build_tile a b c d >>> 4) &&& 3 = c
        ∧ (cscoin_shortest_path_build_tile a b c d >>> 6) &&& 3 = d)
      ∧ (∀ a1 b1 c1 d1, a1 < 4 → b1 < 4 → c1 < 4 → d1 < 4 →
          cscoin_shortest_path_build_tile a1 b1 c1 d1
            = cscoin_shortest_path_build_tile a b c d →
          a1 = a ∧ b1 = b ∧ c1 = c ∧ d1 = d)
      ∧ (∀ t, t < 256 → ∃ a1 b1 c1 d1, a1 < 4 ∧ b1 < 4 ∧ c1 < 4 ∧ d1 < 4
          ∧ cscoin_shortest_path_build_tile a1 b1 c1 d1 = t) := by
  have key4 : ∀ a b c d : Fin 4,
      cscoin_shortest_path_build_tile a.val b.val c.val d.val < 256
        ∧ (cscoin_shortest_path_build_tile a.val b.val c.val d.val >>> 0) &&& 3 = a.val
        ∧ (cscoin_shortest_path_build_tile a.val b.val c.val d.val >>> 2) &&& 3 = b.val
        ∧ (cscoin_shortest_path_build_tile a.val b.val c.val d.val >>> 4) &&& 3 = c.val
        ∧ (cscoin_shortest_path_build_tile a.val b.val c.val d.val >>> 6) &&& 3 = d.val := by
    decide
  have key : ∀ a, a < 4 → ∀ b, b < 4 → ∀ c, c < 4 → ∀ d, d < 4 →
      cscoin_shortest_path_build_tile a b c d < 256
        ∧ (cscoin_shortest_path_build_tile a b c d >>> 0) &&& 3 = a
        ∧ (cscoin_shortest_path_build_tile a b c d >>> 2) &&& 3 = b
        ∧ (cscoin_shortest_path_build_tile a b c d >>> 4) &&& 3 = c
        ∧ (cscoin_shortest_path_build_tile a b c d >>> 6) &&& 3 = d :=
    fun a ha b hb c hc d hd => key4 ⟨a, ha⟩ ⟨b, hb⟩ ⟨c, hc⟩ ⟨d, hd⟩
  have onto : ∀ t, t < 256 →
      cscoin_shortest_path_build_tile (tile_field t 0) (tile_field t 1) (tile_field t 2)
          (tile_field t 3) = t
        ∧ tile_field t 0 < 4 ∧ tile_field t 1 < 4 ∧ tile_field t 2 < 4
        ∧ tile_field t 3 < 4 := by
    decide
  refine ⟨key a ha b hb c hc d hd, ?_, ?_⟩
  · intro a1 b1 c1 d1 ha1 hb1 hc1 hd1 heq
    obtain ⟨_, h0, h2, h4, h6⟩ := key a ha b hb c hc d hd
    obtain ⟨_, g0, g2, g4, g6⟩ := key a1 ha1 b1 hb1 c1 hc1 d1 hd1
    rw [heq] at g0 g2 g4 g6
    exact ⟨g0.symm.trans h0, g2.symm.trans h2, g4.symm.trans h4, g6.symm.trans h6⟩
  · intro t ht
    obtain ⟨h, h0, h1, h2, h3⟩ := onto t ht
    exact ⟨_, _, _, _, h0, h1, h2, h3, h⟩

/-- Witness for C19: the tile built in `solve_shortest_path_challenge`, three
blank corners and an exit. -/
theorem build_tile_round_trip_witness :
    (0 < 4 ∧ 2 < 4)
      ∧ cscoin_shortest_path_build_tile 0 0 0 2 = 128
      ∧ (cscoin_shortest_path_build_tile 0 0 0 2 >>> 6) &&& 3 = 2 :=
  ⟨⟨by decide, by decide⟩, by decide,
    (build_tile_round_trip 0 0 0 2 (by decide) (by decide) (by decide)
      (by decide)).1.2.2.2.2⟩

/-! ## Buffers of the decimal texts -/

/-- C20: the shortest decimal text of a 64-bit value has at most 20 bytes and
that of a 32-bit nonce at most 10; `g_snprintf` with the 32-byte buffers
`number_str` and `nonce_str` stores that whole text and its terminator, within
the 32 bytes, and the bytes handed to the digest are the whole text. -/
theorem decimal_text_not_truncated (ctx : SHA256_CTX) (v n : Nat) (text64 text32 : List Nat)
    (hv : v < 2 ^ 64) (hn : n < 2 ^ 32) (h64 : ShortestDecimal v text64)
    (h32 : ShortestDecimal n text32) :
    (text64.length ≤ 20
        ∧ g_snprintf 32 64 v = text64 ++ [0]
        ∧ (g_snprintf 32 64 v).length ≤ 32
        ∧ SHA256_Update ctx (g_snprintf 32 64 v) (strlen (g_snprintf 32 64 v))
            = ctx ++ text64)
      ∧ (text32.length ≤ 10
        ∧ g_snprintf 32 32 n = text32 ++ [0]
        ∧ (g_snprintf 32 32 n).length ≤ 32
        ∧ SHA256_Update ctx (g_snprintf 32 32 n) (strlen (g_snprintf 32 32 n))
            = ctx ++ text32) := by
  have e64 : fmt_unsigned 64 v = text64 :=
    ShortestDecimal_unique _ _ v (fmt_unsigned_64_shortest v hv) h64
  have e32 : fmt_unsigned 32 n = text32 :=
    ShortestDecimal_unique _ _ n (fmt_unsigned_32_shortest n hn) h32
  have l64 := fmt_unsigned_64_length v
  have l32 := fmt_unsigned_32_length n
  rw [e64] at l64
  rw [e32] at l32
  refine ⟨⟨l64, ?_, ?_, ?_⟩, ⟨l32, ?_, ?_, ?_⟩⟩
  · rw [g_snprintf_64, e64]
  · rw [g_snprintf_64, e64]; simp; omega
  · rw [update_snprintf_64, e64]
  · rw [g_snprintf_32, e32]
  · rw [g_snprintf_32, e32]; simp; omega
  · rw [update_snprintf_32, e32]

/-- Witness for C20: the largest 64-bit value and the largest 32-bit nonce. -/
theorem decimal_text_not_truncated_witness :
    (18446744073709551615 < 2 ^ 64 ∧ 4294967295 < 2 ^ 32
        ∧ ShortestDecimal 18446744073709551615 (cstr "18446744073709551615")
        ∧ ShortestDecimal 4294967295 (cstr "4294967295"))
      ∧ (cstr "18446744073709551615").length ≤ 20
      ∧ g_snprintf 32 64 18446744073709551615 = cstr "18446744073709551615" ++ [0]
      ∧ (cstr "4294967295").length ≤ 10
      ∧ g_snprintf 32 32 4294967295 = cstr "4294967295" ++ [0] :=
  have h64 : ShortestDecimal 18446744073709551615 (cstr "18446744073709551615") :=
    ⟨by decide, by decide, by decide, by decide⟩
  have h32 : ShortestDecimal 4294967295 (cstr "4294967295") :=
    ⟨by decide, by decide, by decide, by decide⟩
  ⟨⟨by norm_num, by norm_num, h64, h32⟩,
    (decimal_text_not_truncated [] 18446744073709551615 4294967295 _ _ (by norm_num)
      (by norm_num) h64 h32).1.1,
    (decimal_text_not_truncated [] 18446744073709551615 4294967295 _ _ (by norm_num)
      (by norm_num) h64 h32).1.2.1,
    (decimal_text_not_truncated [] 18446744073709551615 4294967295 _ _ (by norm_num)
      (by norm_num) h64 h32).2.1,
    (decimal_text_not_truncated [] 18446744073709551615 4294967295 _ _ (by norm_num)
      (by norm_num) h64 h32).2.2.1⟩

/-! ## The result slot: stores to `ret` -/

theorem search_run_workers_length {σ : Type} (E : Search σ) :
    ∀ (sched : List Event) (s : SearchState σ),
      (search_run E s sched).workers.length = s.workers.length := by
  intro sched
  induction sched with
  | nil => intro s; rfl
  | cons e rest ih =>
    intro s
    rw [search_run_cons, ih, search_step_workers_length]

theorem ret_is_last_write_step {σ : Type} (E : Search σ) (s : SearchState σ) (e : Event)
    (h : (s.done = true ↔ s.writes ≠ [])
      ∧ s.ret = s.writes.head?.map (fun p => fmt_unsigned 32 p.2)) :
    ((search_step E s e).done = true ↔ (search_step E s e).writes ≠ [])
      ∧ (search_step E s e).ret
          = (search_step E s e).writes.head?.map (fun p => fmt_unsigned 32 p.2) := by
  cases e with
  | cancel => exact h
  | tick t =>
    rcases search_step_tick E s t with ⟨_, h0⟩ | ⟨w, _, h0⟩
    · rw [h0]; exact h
    · rw [h0]
      rcases worker_step_cases E s t w with ⟨_, h1⟩ | ⟨_, _, h1⟩ | ⟨_, _, _, _, h1⟩
        | ⟨_, _, h1⟩ | ⟨_, _, h1⟩ <;> rw [h1]
      · exact h
      · exact h
      · exact h
      · exact h
      · simp [g_strdup_snprintf_32]

/-- C11, as the code has it: the check after the parallel region gives
cancellation precedence over a recorded winner. Under every schedule, `done`
is set exactly when `ret` has been stored and `ret` then holds the text of the
nonce stored last; if the handle is cancelled when the region has been joined
the call returns `NULL` with the cancelled error, recorded winner or not; and
if it is not cancelled the call returns `ret` with no error. -/
theorem cancellation_overrides_winner {σ : Type} (H : List Nat → List Nat)
    (M : CSCoinMT64Ops σ) (num_threads : Nat) (challenge_id : Int)
    (challenge_type : CSCoinChallengeType) (last_solution_hash : List Nat)
    ( hash_prefix : List Nat) (parameters : CSCoinChallengeParameters) (cancelled : Bool)
    (sched : List Event) (r : SolveResult)
    (hr : cscoin_solve_challenge H M num_threads challenge_id challenge_type
      last_solution_hash hash_prefix parameters cancelled sched = some r) :
    ((solve_state H M num_threads challenge_type last_solution_hash hash_prefix parameters
          cancelled sched).done = true
        ↔ (solve_state H M num_threads challenge_type last_solution_hash hash_prefix
          parameters cancelled sched).ret ≠ none)
      ∧ (solve_state H M num_threads challenge_type last_solution_hash hash_prefix
          parameters cancelled sched).ret
          = (solve_state H M num_threads challenge_type last_solution_hash hash_prefix
              parameters cancelled sched).writes.head?.map (fun p => fmt_unsigned 32 p.2)
      ∧ ((solve_state H M num_threads challenge_type last_solution_hash hash_prefix
            parameters cancelled sched).cancelled = true →
          r = { ret := none, error := some GIOErrorEnum.G_IO_ERROR_CANCELLED })
      ∧ ((solve_state H M num_threads challenge_type last_solution_hash hash_prefix
            parameters cancelled sched).cancelled = false →
          r = { ret := (solve_state H M num_threads challenge_type last_solution_hash
                  hash_prefix parameters cancelled sched).ret,
                error := none }) := by
  have hinv := search_run_invariant
    (solve_search H M challenge_type last_solution_hash hash_prefix parameters)
    (fun st => (st.done = true ↔ st.writes ≠ [])
      ∧ st.ret = st.writes.head?.map (fun p => fmt_unsigned 32 p.2))
    (fun st e h => ret_is_last_write_step _ st e h) sched
    (search_init M num_threads cancelled) ⟨by simp [search_init], rfl⟩
  unfold cscoin_solve_challenge at hr
  split_ifs at hr
  simp only [Option.some.injEq] at hr
  change (_ ↔ _) ∧ (solve_state H M num_threads challenge_type last_solution_hash
    hash_prefix parameters cancelled sched).ret = _ at hinv
  refine ⟨?_, hinv.2, ?_, ?_⟩
  · rw [hinv.2]
    unfold solve_state
    rw [hinv.1]
    cases (search_run (solve_search H M challenge_type last_solution_hash hash_prefix
      parameters) (search_init M num_threads cancelled) sched).writes <;> simp
  · intro hc
    rw [← hr]
    unfold solve_return
    rw [if_pos hc]
  · intro hc
    rw [← hr]
    unfold solve_return
    rw [hc]
    rfl

set_option maxRecDepth 100000 in
/-- Witness for C11 as the code has it: one thread finds nonce 0, the handle is
cancelled before the thread leaves the loop, the call reports cancellation. -/
theorem cancellation_overrides_winner_witness :
    cscoin_solve_challenge sha256 lcg64 1 0 CSCoinChallengeType.SORTED_LIST zero_hash
        (cstr "75bd") three_elements false
        [Event.tick 0, Event.tick 0, Event.cancel, Event.tick 0]
        = some { ret := none, error := some GIOErrorEnum.G_IO_ERROR_CANCELLED }
      ∧ ((solve_state sha256 lcg64 1 CSCoinChallengeType.SORTED_LIST zero_hash (cstr "75bd")
            three_elements false
            [Event.tick 0, Event.tick 0, Event.cancel, Event.tick 0]).done = true
        ↔ (solve_state sha256 lcg64 1 CSCoinChallengeType.SORTED_LIST zero_hash
            (cstr "75bd") three_elements false
            [Event.tick 0, Event.tick 0, Event.cancel, Event.tick 0]).ret ≠ none) :=
  ⟨by decide,
    (cancellation_overrides_winner sha256 lcg64 1 0 CSCoinChallengeType.SORTED_LIST
      zero_hash (cstr "75bd") three_elements false
      [Event.tick 0, Event.tick 0, Event.cancel, Event.tick 0]
      { ret := none, error := some GIOErrorEnum.G_IO_ERROR_CANCELLED } (by decide)).1⟩

set_option maxRecDepth 100000 in
/-- C11 fails as stated: one thread records the matching nonce 0 (`done` is
set, `ret` is "0"), then the handle is cancelled, and the call reports
cancellation instead of the recorded nonce. -/
theorem cancelled_after_winner :
    (solve_state sha256 lcg64 1 CSCoinChallengeType.SORTED_LIST zero_hash (cstr "75bd")
        three_elements false [Event.tick 0, Event.tick 0]).done = true
      ∧ (solve_state sha256 lcg64 1 CSCoinChallengeType.SORTED_LIST zero_hash (cstr "75bd")
        three_elements false [Event.tick 0, Event.tick 0]).ret = some (cstr "0")
      ∧ cscoin_solve_challenge sha256 lcg64 1 0 CSCoinChallengeType.SORTED_LIST zero_hash
          (cstr "75bd") three_elements false
          [Event.tick 0, Event.tick 0, Event.cancel, Event.tick 0]
          = some { ret := none, error := some GIOErrorEnum.G_IO_ERROR_CANCELLED } := by
  decide

/-! ## How often `ret` is stored -/

theorem writers_invariant_step {σ : Type} (E : Search σ) (s : SearchState σ) (e : Event)
    (h : (s.writes ≠ [] → s.done = true)
      ∧ (∀ p ∈ s.writes, ∀ w, s.workers[p.1]? = some w → w.pc ≠ PC.loop_body)
      ∧ (s.writes.map Prod.fst).Nodup
      ∧ ∀ p ∈ s.writes, p.1 < s.workers.length) :
    ((search_step E s e).writes ≠ [] → (search_step E s e).done = true)
      ∧ (∀ p ∈ (search_step E s e).writes, ∀ w,
          (search_step E s e).workers[p.1]? = some w → w.pc ≠ PC.loop_body)
      ∧ ((search_step E s e).writes.map Prod.fst).Nodup
      ∧ ∀ p ∈ (search_step E s e).writes, p.1 < (search_step E s e).workers.length := by
  obtain ⟨hd, hpc, hnd, hlt⟩ := h
  have hset : ∀ (w1 : Worker σ) (t : Nat), w1.pc ≠ PC.loop_body →
      ∀ p ∈ s.writes, ∀ w, (s.workers.set t w1)[p.1]? = some w → w.pc ≠ PC.loop_body := by
    intro w1 t hw1 p hp w hw
    by_cases hpt : t = p.1
    · subst hpt
      rw [List.getElem?_set_self (hlt p hp)] at hw
      injection hw with hw
      rw [← hw]; exact hw1
    · rw [List.getElem?_set_ne hpt] at hw
      exact hpc p hp w hw
  cases e with
  | cancel => exact ⟨hd, hpc, hnd, hlt⟩
  | tick t =>
    rcases search_step_tick E s t with ⟨_, h0⟩ | ⟨w, hwt, h0⟩
    · rw [h0]; exact ⟨hd, hpc, hnd, hlt⟩
    · have htl : t < s.workers.length := (List.getElem?_eq_some_iff.mp hwt).1
      rw [h0]
      rcases worker_step_cases E s t w with ⟨_, h1⟩ | ⟨_, _, h1⟩ | ⟨_, _, hdf, _, h1⟩
        | ⟨hbody, _, h1⟩ | ⟨hbody, _, h1⟩ <;> rw [h1]
      · exact ⟨hd, hpc, hnd, hlt⟩
      · refine ⟨hd, hset _ t (by simp), hnd, ?_⟩
        intro p hp
        simp only [List.length_set]
        exact hlt p hp
      · have hw0 : s.writes = [] := by
          by_contra hne
          rw [hd hne] at hdf
          exact absurd hdf (by decide)
        simp only [hw0]
        refine ⟨by simp, by simp, by simp, by simp⟩
      · refine ⟨hd, hset _ t (by simp), hnd, ?_⟩
        intro p hp
        simp only [List.length_set]
        exact hlt p hp
      · refine ⟨fun _ => rfl, ?_, ?_, ?_⟩
        · intro p hp w2 hw2
          simp only [List.mem_cons] at hp
          rcases hp with rfl | hp
          · simp only at hw2
            rw [List.getElem?_set_self htl] at hw2
            injection hw2 with hw2
            rw [← hw2]; simp
          · exact hset _ t (by simp) p hp w2 hw2
        · simp only [List.map_cons, List.nodup_cons]
          refine ⟨?_, hnd⟩
          intro hmem
          obtain ⟨p, hp, hpt⟩ := List.mem_map.mp hmem
          have := hpc p hp w (by rw [hpt]; exact hwt)
          exact this hbody
        · intro p hp
          simp only [List.length_set]
          simp only [List.mem_cons] at hp
          rcases hp with rfl | hp
          · exact htl
          · exact hlt p hp

theorem nodup_lt_length_le (l : List Nat) (P : Nat) (hnd : l.Nodup)
    (hlt : ∀ x ∈ l, x < P) : l.length ≤ P := by
  have hsub : l ⊆ List.range P := fun x hx => List.mem_range.mpr (hlt x hx)
  have := (List.subperm_of_subset hnd hsub).length_le
  simpa using this

/-- C13, as the code has it: `ret` is stored without any compare-and-set.
Under every schedule each thread stores `ret` at most once, so there are at
most `num_threads` stores; `ret` holds the text of the nonce stored last; and
once `done` is set a thread standing at the loop head leaves the loop at its
next step. A thread already past the guard is not held back. -/
theorem each_worker_writes_at_most_once {σ : Type} (H : List Nat → List Nat)
    (M : CSCoinMT64Ops σ) (num_threads : Nat) (challenge_type : CSCoinChallengeType)
    (last_solution_hash : List Nat) ( hash_prefix : List Nat)
    (parameters : CSCoinChallengeParameters) (cancelled : Bool) (sched : List Event) :
    ((solve_state H M num_threads challenge_type last_solution_hash hash_prefix parameters
        cancelled sched).writes.map Prod.fst).Nodup
      ∧ (solve_state H M num_threads challenge_type last_solution_hash hash_prefix
          parameters cancelled sched).writes.length ≤ num_threads
      ∧ (solve_state H M num_threads challenge_type last_solution_hash hash_prefix
          parameters cancelled sched).ret
          = (solve_state H M num_threads challenge_type last_solution_hash hash_prefix
              parameters cancelled sched).writes.head?.map (fun p => fmt_unsigned 32 p.2)
      ∧ (∀ (t : Nat) (w : Worker σ),
          (solve_state H M num_threads challenge_type last_solution_hash hash_prefix
            parameters cancelled sched).done = true →
          (solve_state H M num_threads challenge_type last_solution_hash hash_prefix
            parameters cancelled sched).workers[t]? = some w →
          w.pc = PC.loop_head →
          ∃ w1, (solve_state H M num_threads challenge_type last_solution_hash
              hash_prefix parameters cancelled (sched ++ [Event.tick t])).workers[t]?
                = some w1
            ∧ w1.pc = PC.exited) := by
  have hinv := search_run_invariant
    (solve_search H M challenge_type last_solution_hash hash_prefix parameters)
    (fun st => (st.writes ≠ [] → st.done = true)
      ∧ (∀ p ∈ st.writes, ∀ w, st.workers[p.1]? = some w → w.pc ≠ PC.loop_body)
      ∧ (st.writes.map Prod.fst).Nodup
      ∧ ∀ p ∈ st.writes, p.1 < st.workers.length)
    (fun st e h => writers_invariant_step _ st e h) sched
    (search_init M num_threads cancelled)
    ⟨by simp [search_init], by simp [search_init], by simp [search_init],
      by simp [search_init]⟩
  have hret := search_run_invariant
    (solve_search H M challenge_type last_solution_hash hash_prefix parameters)
    (fun st => (st.done = true ↔ st.writes ≠ [])
      ∧ st.ret = st.writes.head?.map (fun p => fmt_unsigned 32 p.2))
    (fun st e h => ret_is_last_write_step _ st e h) sched
    (search_init M num_threads cancelled) ⟨by simp [search_init], rfl⟩
  have hlen := search_run_workers_length
    (solve_search H M challenge_type last_solution_hash hash_prefix parameters) sched
    (search_init M num_threads cancelled)
  rw [search_init_workers_length] at hlen
  refine ⟨hinv.2.2.1, ?_, hret.2, ?_⟩
  · have := nodup_lt_length_le _ num_threads hinv.2.2.1 (by
      intro x hx
      obtain ⟨p, hp, rfl⟩ := List.mem_map.mp hx
      have := hinv.2.2.2 p hp
      rw [hlen] at this
      exact this)
    simpa using this
  · intro t w hdone hw hpc
    unfold solve_state at hdone hw ⊢
    rw [search_run_append]
    generalize search_run (solve_search H M challenge_type last_solution_hash hash_prefix
      parameters) (search_init M num_threads cancelled) sched = st at hdone hw ⊢
    have htl : t < st.workers.length := (List.getElem?_eq_some_iff.mp hw).1
    rw [search_run_cons, search_run_nil]
    rcases search_step_tick (solve_search H M challenge_type last_solution_hash hash_prefix
      parameters) st t with ⟨hn, _⟩ | ⟨w0, hw0, h⟩
    · rw [hn] at hw; exact absurd hw (by simp)
    · rw [hw] at hw0
      injection hw0 with hw0
      subst hw0
      rw [h]
      rcases worker_step_cases (solve_search H M challenge_type last_solution_hash
        hash_prefix parameters) st t w with
        ⟨hp, _⟩ | ⟨_, _, h1⟩ | ⟨_, _, hdf, _, _⟩ | ⟨hp, _, _⟩ | ⟨hp, _, _⟩
      · rw [hpc] at hp; exact absurd hp (by decide)
      · rw [h1]
        exact ⟨_, List.getElem?_set_self htl, rfl⟩
      · rw [hdone] at hdf; exact absurd hdf (by decide)
      · rw [hpc] at hp; exact absurd hp (by decide)
      · rw [hpc] at hp; exact absurd hp (by decide)

set_option maxRecDepth 100000 in
/-- C13 fails as stated: two threads, challenge type shortest path and the
prefix "e3b0", which every nonce matches. Both threads pass the guard before
either stores; thread 0 stores "0", then thread 1 stores "2147483647" over it. -/
theorem two_workers_both_write :
    (solve_state sha256 lcg64 2 CSCoinChallengeType.SHORTEST_PATH zero_hash (cstr "e3b0")
        small_grid false
        [Event.tick 0, Event.tick 1, Event.tick 0, Event.tick 1]).writes
        = [(1, 2147483647), (0, 0)]
      ∧ (solve_state sha256 lcg64 2 CSCoinChallengeType.SHORTEST_PATH zero_hash
          (cstr "e3b0") small_grid false
          [Event.tick 0, Event.tick 1, Event.tick 0]).ret = some (cstr "0")
      ∧ (solve_state sha256 lcg64 2 CSCoinChallengeType.SHORTEST_PATH zero_hash
          (cstr "e3b0") small_grid false
          [Event.tick 0, Event.tick 1, Event.tick 0, Event.tick 1]).ret
          = some (cstr "2147483647") := by
  decide

set_option maxRecDepth 100000 in
/-- Witness for C13 as the code has it: two threads, thread 0 has stored its
nonce, thread 1 still stands at the loop head and leaves at its next step. -/
theorem each_worker_writes_at_most_once_witness :
    ((solve_state sha256 lcg64 2 CSCoinChallengeType.SHORTEST_PATH zero_hash (cstr "e3b0")
          small_grid false [Event.tick 0, Event.tick 0]).done = true
        ∧ (solve_state sha256 lcg64 2 CSCoinChallengeType.SHORTEST_PATH zero_hash
          (cstr "e3b0") small_grid false [Event.tick 0, Event.tick 0]).workers[1]?
            = some (worker_init lcg64 2 1)
        ∧ (worker_init lcg64 2 1).pc = PC.loop_head)
      ∧ ∃ w1, (solve_state sha256 lcg64 2 CSCoinChallengeType.SHORTEST_PATH zero_hash
            (cstr "e3b0") small_grid false
            ([Event.tick 0, Event.tick 0] ++ [Event.tick 1])).workers[1]? = some w1
          ∧ w1.pc = PC.exited :=
  ⟨⟨by decide, by rfl, rfl⟩,
    (each_worker_writes_at_most_once sha256 lcg64 2 CSCoinChallengeType.SHORTEST_PATH
      zero_hash (cstr "e3b0") small_grid false [Event.tick 0, Event.tick 0]).2.2.2 1
      (worker_init lcg64 2 1) (by decide) (by rfl) rfl⟩

/-! ## Exhausting the nonce space -/

theorem nonce_to_lt (P i : Nat) : nonce_to P i < 2 ^ 32 :=
  Nat.mod_lt _ (by norm_num)

theorem exhaust_invariant_tick {σ : Type} (E : Search σ) (P : Nat)
    (hno : ∀ i, i < P → ∀ (mt64 : σ) (n : Nat), nonce_from P i ≤ n → n < nonce_to P i →
      prefix_matches E.target (nonce_digest E.H E.M E.challenge_type E.last_solution_hash
        E.parameters mt64 n).2.1 = false)
    (s : SearchState σ) (t : Nat) (h : exhaust_invariant P s) :
    exhaust_invariant P (search_step E s (Event.tick t))
      ∧ ∀ w, s.workers[t]? = some w →
          ∃ w1, (search_step E s (Event.tick t)).workers[t]? = some w1
            ∧ worker_steps_left w1 = worker_steps_left w - 1 := by
  obtain ⟨hret, hdone, hcanc, hlen, hw⟩ := h
  rcases search_step_tick E s t with ⟨hn, h0⟩ | ⟨w, hwt, h0⟩
  · rw [h0]
    refine ⟨⟨hret, hdone, hcanc, hlen, hw⟩, ?_⟩
    intro w hw2
    rw [hn] at hw2
    exact absurd hw2 (by simp)
  · have htl : t < s.workers.length := (List.getElem?_eq_some_iff.mp hwt).1
    obtain ⟨hto, hfrom, hle, hbody⟩ := hw t w hwt
    have hset : ∀ w1 : Worker σ, w1.nonce_to = nonce_to P t → nonce_from P t ≤ w1.nonce →
        w1.nonce ≤ w1.nonce_to → (w1.pc = PC.loop_body → w1.nonce < w1.nonce_to) →
        ∀ t2 w2, (s.workers.set t w1)[t2]? = some w2 →
          w2.nonce_to = nonce_to P t2 ∧ nonce_from P t2 ≤ w2.nonce ∧ w2.nonce ≤ w2.nonce_to
            ∧ (w2.pc = PC.loop_body → w2.nonce < w2.nonce_to) := by
      intro w1 a1 a2 a3 a4 t2 w2 hw2
      by_cases ht : t = t2
      · subst ht
        rw [List.getElem?_set_self htl] at hw2
        injection hw2 with hw2
        subst hw2
        exact ⟨a1, a2, a3, a4⟩
      · rw [List.getElem?_set_ne ht] at hw2
        exact hw t2 w2 hw2
    have hone : ∀ w0, s.workers[t]? = some w0 → w0 = w := by
      intro w0 hw0
      rw [hwt] at hw0
      injection hw0 with hw0
      exact hw0.symm
    rw [h0]
    rcases worker_step_cases E s t w with ⟨hpc, h1⟩ | ⟨hpc, hex, h1⟩ | ⟨hpc, hlt, _, _, h1⟩
      | ⟨hpc, _, h1⟩ | ⟨hpc, hm, _⟩
    · rw [h1]
      refine ⟨⟨hret, hdone, hcanc, hlen, hw⟩, ?_⟩
      intro w0 hw0
      rw [hone w0 hw0]
      exact ⟨w, hwt, by simp [worker_steps_left, hpc]⟩
    · rw [h1]
      have hnlt : ¬ w.nonce < w.nonce_to := by
        rcases hex with h2 | h2 | h2
        · exact h2
        · rw [hdone] at h2; exact absurd h2 (by decide)
        · rw [hcanc] at h2; exact absurd h2 (by decide)
      refine ⟨⟨hret, hdone, hcanc, by simp [hlen],
        hset _ hto hfrom hle (by simp)⟩, ?_⟩
      intro w0 hw0
      rw [hone w0 hw0]
      refine ⟨_, List.getElem?_set_self htl, ?_⟩
      simp only [worker_steps_left, hpc]
      omega
    · rw [h1]
      refine ⟨⟨hret, hdone, hcanc, by simp [hlen],
        hset _ hto hfrom hle (fun _ => hlt)⟩, ?_⟩
      intro w0 hw0
      rw [hone w0 hw0]
      refine ⟨_, List.getElem?_set_self htl, ?_⟩
      simp only [worker_steps_left, hpc]
      omega
    · rw [h1]
      have hlt := hbody hpc
      have hto32 : w.nonce_to < 2 ^ 32 := by rw [hto]; exact nonce_to_lt P t
      have hnext : (w.nonce + 1) % 2 ^ 32 = w.nonce + 1 := Nat.mod_eq_of_lt (by omega)
      refine ⟨⟨hret, hdone, hcanc, by simp [hlen],
        hset _ hto (by simp only [hnext]; omega) (by simp only [hnext]; omega)
          (by simp)⟩, ?_⟩
      intro w0 hw0
      rw [hone w0 hw0]
      refine ⟨_, List.getElem?_set_self htl, ?_⟩
      simp only [worker_steps_left, hpc, hnext]
      omega
    · exfalso
      have hlt := hbody hpc
      have := hno t (by rw [← hlen]; exact htl) w.mt64 w.nonce hfrom (by rw [← hto]; exact hlt)
      rw [this] at hm
      exact absurd hm (by decide)

theorem exhaust_invariant_run {σ : Type} (E : Search σ) (P : Nat)
    (hno : ∀ i, i < P → ∀ (mt64 : σ) (n : Nat), nonce_from P i ≤ n → n < nonce_to P i →
      prefix_matches E.target (nonce_digest E.H E.M E.challenge_type E.last_solution_hash
        E.parameters mt64 n).2.1 = false) :
    ∀ (sched : List Event) (s : SearchState σ), Event.cancel ∉ sched →
      exhaust_invariant P s → exhaust_invariant P (search_run E s sched) := by
  intro sched
  induction sched with
  | nil => intro s _ h; exact h
  | cons e rest ih =>
    intro s hn h
    rw [search_run_cons]
    apply ih _ (fun hmem => hn (List.mem_cons_of_mem _ hmem))
    cases e with
    | cancel => simp at hn
    | tick t => exact (exhaust_invariant_tick E P hno s t h).1

theorem exhaust_run_ticks {σ : Type} (E : Search σ) (P : Nat)
    (hno : ∀ i, i < P → ∀ (mt64 : σ) (n : Nat), nonce_from P i ≤ n → n < nonce_to P i →
      prefix_matches E.target (nonce_digest E.H E.M E.challenge_type E.last_solution_hash
        E.parameters mt64 n).2.1 = false) (t : Nat) :
    ∀ (k : Nat) (s : SearchState σ) (w : Worker σ), exhaust_invariant P s →
      s.workers[t]? = some w →
      ∃ w1, (search_run E s (List.replicate k (Event.tick t))).workers[t]? = some w1
        ∧ worker_steps_left w1 = worker_steps_left w - k := by
  intro k
  induction k with
  | zero => intro s w _ hw; exact ⟨w, hw, rfl⟩
  | succ k ih =>
    intro s w h hw
    obtain ⟨hinv, hstep⟩ := exhaust_invariant_tick E P hno s t h
    obtain ⟨w1, hw1, hl1⟩ := hstep w hw
    obtain ⟨w2, hw2, hl2⟩ := ih _ w1 hinv hw1
    refine ⟨w2, ?_, ?_⟩
    · rw [List.replicate_succ, search_run_cons]; exact hw2
    · rw [hl2, hl1]; omega

theorem search_run_exited_stays {σ : Type} (E : Search σ) (t : Nat) (w : Worker σ)
    (hpc : w.pc = PC.exited) :
    ∀ (sched : List Event) (s : SearchState σ), s.workers[t]? = some w →
      (search_run E s sched).workers[t]? = some w := by
  intro sched
  induction sched with
  | nil => intro s hw; exact hw
  | cons e rest ih =>
    intro s hw
    rw [search_run_cons]
    exact ih _ (search_step_exited_stays E s e t w hw hpc)

theorem flatMap_split {α β : Type} (f : α → List β) :
    ∀ (l : List α) (a : α), a ∈ l → ∃ A B, l.flatMap f = A ++ f a ++ B := by
  intro l
  induction l with
  | nil => intro a ha; simp at ha
  | cons x xs ih =>
    intro a ha
    rcases List.mem_cons.mp ha with rfl | ha
    · exact ⟨[], xs.flatMap f, by simp⟩
    · obtain ⟨A, B, hAB⟩ := ih a ha
      exact ⟨f x ++ A, B, by simp [hAB]⟩

theorem sequential_schedule_no_cancel (P k : Nat) :
    Event.cancel ∉ sequential_schedule P k := by
  intro h
  simp only [sequential_schedule, List.mem_flatMap, List.mem_replicate] at h
  obtain ⟨t, _, _, h2⟩ := h
  exact absurd h2 (by simp)

theorem search_init_exhaust_invariant {σ : Type} (M : CSCoinMT64Ops σ) (P : Nat) :
    exhaust_invariant P (search_init M P false) := by
  refine ⟨rfl, rfl, rfl, search_init_workers_length M P false, ?_⟩
  intro t w hw
  have htl : t < P := by
    have := (List.getElem?_eq_some_iff.mp hw).1
    rwa [search_init_workers_length] at this
  simp only [search_init, List.getElem?_map, List.getElem?_range htl, Option.map_some',
    Option.some.injEq] at hw
  subst hw
  refine ⟨rfl, le_refl _, ?_, fun h => by simp [worker_init] at h⟩
  show nonce_from P t ≤ nonce_to P t
  rw [nonce_from_eq P t htl, nonce_to_eq P t htl]
  exact Nat.mul_le_mul_right _ (Nat.le_succ t)

theorem exhaust_steps_left_bound {σ : Type} (P : Nat) (s : SearchState σ) (t : Nat)
    (w : Worker σ) (h : exhaust_invariant P s) (hw : s.workers[t]? = some w) :
    worker_steps_left w ≤ 2 * nonce_partition_size P + 1
      ∧ (worker_steps_left w = 0 → w.pc = PC.exited) := by
  obtain ⟨_, _, _, hlen, hall⟩ := h
  have htl : t < P := by
    have := (List.getElem?_eq_some_iff.mp hw).1
    rwa [hlen] at this
  obtain ⟨hto, hfrom, hle, hbody⟩ := hall t w hw
  rw [nonce_from_eq P t htl] at hfrom
  rw [hto, nonce_to_eq P t htl] at hle
  have hsucc : (t + 1) * nonce_partition_size P
      = t * nonce_partition_size P + nonce_partition_size P := by ring
  cases hpc : w.pc with
  | exited => simp [worker_steps_left, hpc]
  | loop_head =>
    simp only [worker_steps_left, hpc, hto, nonce_to_eq P t htl]
    refine ⟨by omega, by omega⟩
  | loop_body =>
    have := hbody hpc
    simp only [worker_steps_left, hpc, hto, nonce_to_eq P t htl]
    rw [hto, nonce_to_eq P t htl] at this
    refine ⟨by omega, by omega⟩

theorem exhaust_sequential_all_exited {σ : Type} (E : Search σ) (P : Nat)
    (hno : ∀ i, i < P → ∀ (mt64 : σ) (n : Nat), nonce_from P i ≤ n → n < nonce_to P i →
      prefix_matches E.target (nonce_digest E.H E.M E.challenge_type E.last_solution_hash
        E.parameters mt64 n).2.1 = false) :
    ∀ w ∈ (search_run E (search_init E.M P false)
        (sequential_schedule P (2 * nonce_partition_size P + 1))).workers,
      w.pc = PC.exited := by
  intro w hw
  obtain ⟨t, ht, hwt⟩ := List.getElem_of_mem hw
  have hwt2 : (search_run E (search_init E.M P false)
      (sequential_schedule P (2 * nonce_partition_size P + 1))).workers[t]? = some w := by
    rw [List.getElem?_eq_getElem ht, hwt]
  have htP : t < P := by
    rw [search_run_workers_length, search_init_workers_length] at ht
    exact ht
  obtain ⟨A, B, hAB⟩ := flatMap_split
    (fun t => List.replicate (2 * nonce_partition_size P + 1) (Event.tick t))
    (List.range P) t (List.mem_range.mpr htP)
  have hsched : sequential_schedule P (2 * nonce_partition_size P + 1)
      = A ++ List.replicate (2 * nonce_partition_size P + 1) (Event.tick t) ++ B := hAB
  have hnoA : Event.cancel ∉ A := by
    intro h
    apply sequential_schedule_no_cancel P (2 * nonce_partition_size P + 1)
    rw [hsched]
    simp [h]
  have hinvA := exhaust_invariant_run E P hno A (search_init E.M P false) hnoA
    (search_init_exhaust_invariant E.M P)
  have htA : t < (search_run E (search_init E.M P false) A).workers.length := by
    rw [search_run_workers_length, search_init_workers_length]; exact htP
  obtain ⟨w1, hw1, hl1⟩ := exhaust_run_ticks E P hno t (2 * nonce_partition_size P + 1)
    (search_run E (search_init E.M P false) A) _ hinvA (List.getElem?_eq_getElem htA)
  have hb := exhaust_steps_left_bound P _ t _ hinvA (List.getElem?_eq_getElem htA)
  have hinv1 := exhaust_invariant_run E P hno
    (List.replicate (2 * nonce_partition_size P + 1) (Event.tick t))
    (search_run E (search_init E.M P false) A) (by simp) hinvA
  have hex : w1.pc = PC.exited :=
    (exhaust_steps_left_bound P _ t w1 hinv1 hw1).2 (by omega)
  have hfin := search_run_exited_stays E t w1 hex B _ hw1
  rw [← search_run_append, ← search_run_append, ← List.append_assoc, ← hsched, hwt2] at hfin
  injection hfin with hfin
  rw [hfin]; exact hex

/-- C12: let the handle never be cancelled and let no nonce of any thread's
range produce a matching second digest (the generator being one whose reseeding
forgets the previous state). Then whenever the call returns it returns `NULL`
with no error set; it does return, for instance when the threads run to the
end one after the other; and that result differs both from a returned string
and from `NULL` with the cancelled error. -/
theorem exhaustion_is_not_found {σ : Type} (H : List Nat → List Nat) (M : CSCoinMT64Ops σ)
    (hreseed : ∀ (mt64 : σ) (seed : Nat), M.set_seed mt64 seed = M.set_seed M.init seed)
    (num_threads : Nat) (challenge_id : Int) (challenge_type : CSCoinChallengeType)
    (last_solution_hash : List Nat) ( hash_prefix : List Nat)
    (parameters : CSCoinChallengeParameters)
    (hno : ∀ i, i < num_threads → ∀ n, nonce_from num_threads i ≤ n →
      n < nonce_to num_threads i →
      prefix_matches (hash_prefix_num hash_prefix)
        (pipeline_digest2 H M challenge_type last_solution_hash parameters
          (fmt_unsigned 32 n)) = false) :
    (∀ sched, Event.cancel ∉ sched → ∀ r,
        cscoin_solve_challenge H M num_threads challenge_id challenge_type
          last_solution_hash hash_prefix parameters false sched = some r →
        r = { ret := none, error := none })
      ∧ cscoin_solve_challenge H M num_threads challenge_id challenge_type
          last_solution_hash hash_prefix parameters false
          (sequential_schedule num_threads (2 * nonce_partition_size num_threads + 1))
          = some { ret := none, error := none }
      ∧ (∀ (s : List Nat) (e : Option GIOErrorEnum),
          ({ ret := none, error := none } : SolveResult) ≠ { ret := some s, error := e })
      ∧ ({ ret := none, error := none } : SolveResult)
          ≠ { ret := none, error := some GIOErrorEnum.G_IO_ERROR_CANCELLED } := by
  have hno2 : ∀ i, i < num_threads → ∀ (mt64 : σ) (n : Nat),
      nonce_from num_threads i ≤ n → n < nonce_to num_threads i →
      prefix_matches (solve_search H M challenge_type last_solution_hash hash_prefix
          parameters).target
        (nonce_digest H M challenge_type last_solution_hash parameters mt64 n).2.1
          = false := by
    intro i hi mt64 n h1 h2
    rw [nonce_digest_eq_pipeline H M hreseed]
    exact hno i hi n h1 h2
  have hgen : ∀ sched, Event.cancel ∉ sched →
      solve_return (solve_state H M num_threads challenge_type last_solution_hash
        hash_prefix parameters false sched) = { ret := none, error := none } := by
    intro sched hnc
    have hinv := exhaust_invariant_run
      (solve_search H M challenge_type last_solution_hash hash_prefix parameters)
      num_threads hno2 sched (search_init M num_threads false) hnc
      (search_init_exhaust_invariant M num_threads)
    obtain ⟨hret, _, hcanc, _, _⟩ := hinv
    unfold solve_return solve_state
    rw [hcanc, hret]
    rfl
  refine ⟨?_, ?_, ?_, ?_⟩
  · intro sched hnc r hr
    unfold cscoin_solve_challenge at hr
    split_ifs at hr
    rw [hgen sched hnc] at hr
    injection hr with hr
    exact hr.symm
  · have hex := exhaust_sequential_all_exited
      (solve_search H M challenge_type last_solution_hash hash_prefix parameters)
      num_threads hno2
    unfold cscoin_solve_challenge
    rw [if_pos, hgen _ (sequential_schedule_no_cancel _ _)]
    rw [List.all_eq_true]
    intro w hw
    have := hex w hw
    simp [this]
  · intro s e h
    injection h with h1 _
    exact absurd h1 (by simp)
  · intro h
    injection h with _ h2
    exact absurd h2 (by simp)

set_option maxRecDepth 100000 in
/-- Witness for C12: SHA-256, one thread, challenge type shortest path and the
prefix "0000": the second digest of every nonce is the digest of the empty
input, which starts with the bytes e3 b0, so no nonce matches. -/
theorem exhaustion_is_not_found_witness :
    (∀ i, i < 1 → ∀ n, nonce_from 1 i ≤ n → n < nonce_to 1 i →
        prefix_matches (hash_prefix_num (cstr "0000"))
          (pipeline_digest2 sha256 lcg64 CSCoinChallengeType.SHORTEST_PATH zero_hash
            small_grid (fmt_unsigned 32 n)) = false)
      ∧ cscoin_solve_challenge sha256 lcg64 1 0 CSCoinChallengeType.SHORTEST_PATH zero_hash
          (cstr "0000") small_grid false
          (sequential_schedule 1 (2 * nonce_partition_size 1 + 1))
          = some { ret := none, error := none } :=
  have hno : ∀ i, i < 1 → ∀ n, nonce_from 1 i ≤ n → n < nonce_to 1 i →
      prefix_matches (hash_prefix_num (cstr "0000"))
        (pipeline_digest2 sha256 lcg64 CSCoinChallengeType.SHORTEST_PATH zero_hash
          small_grid (fmt_unsigned 32 n)) = false := by
    intro i _ n _ _
    show prefix_matches (hash_prefix_num (cstr "0000")) (SHA256_Final sha256 []) = false
    decide
  ⟨hno,
    (exhaustion_is_not_found sha256 lcg64 (fun _ _ => rfl) 1 0
      CSCoinChallengeType.SHORTEST_PATH zero_hash (cstr "0000") small_grid hno).2.1⟩

/-! ## One worker: the first match wins -/

theorem first_match_tick {σ : Type} (E : Search σ)
    (hreseed : ∀ (mt64 : σ) (seed : Nat), E.M.set_seed mt64 seed = E.M.set_seed E.M.init seed)
    (m : Nat) (hm : m < 2 ^ 32 - 1)
    (hmatch : prefix_matches E.target (pipeline_digest2 E.H E.M E.challenge_type
      E.last_solution_hash E.parameters (fmt_unsigned 32 m)) = true)
    (hleast : ∀ n, n < m → prefix_matches E.target (pipeline_digest2 E.H E.M
      E.challenge_type E.last_solution_hash E.parameters (fmt_unsigned 32 n)) = false)
    (s : SearchState σ) (h : first_match_invariant m s) :
    first_match_invariant m (search_step E s (Event.tick 0))
      ∧ first_match_steps_left m (search_step E s (Event.tick 0))
          = first_match_steps_left m s - 1 := by
  obtain ⟨hcanc, w, hws, hto, hsc, hcase⟩ := h
  have hw0 : s.workers[0]? = some w := by rw [hws]; rfl
  have hset : ∀ w1 : Worker σ, s.workers.set 0 w1 = [w1] := by
    intro w1; rw [hws]; rfl
  have hdig : ∀ n, (nonce_digest E.H E.M E.challenge_type E.last_solution_hash E.parameters
      w.mt64 n).2.1 = pipeline_digest2 E.H E.M E.challenge_type E.last_solution_hash
        E.parameters (fmt_unsigned 32 n) :=
    fun n => nonce_digest_eq_pipeline E.H E.M hreseed _ _ _ _ n
  rcases search_step_tick E s 0 with ⟨hn, _⟩ | ⟨w0, hw1, h0⟩
  · rw [hn] at hw0; exact absurd hw0 (by simp)
  · rw [hw0] at hw1
    injection hw1 with hw1
    subst hw1
    rw [h0]
    rcases worker_step_cases E s 0 w with ⟨hpc, h1⟩ | ⟨hpc, hex, h1⟩
      | ⟨hpc, hlt, hdf, _, h1⟩ | ⟨hpc, hnm, h1⟩ | ⟨hpc, hmt, h1⟩
    · rw [h1]
      refine ⟨⟨hcanc, w, hws, hto, hsc, hcase⟩, ?_⟩
      simp [first_match_steps_left, hws, hpc]
    · rw [h1, hset]
      rcases hcase with ⟨hd, _, hle, _⟩ | ⟨hd, hr, _⟩
      · exfalso
        rcases hex with h2 | h2 | h2
        · exact h2 (by rw [hto]; omega)
        · rw [hd] at h2; exact absurd h2 (by decide)
        · rw [hcanc] at h2; exact absurd h2 (by decide)
      · refine ⟨⟨hcanc, _, rfl, hto, hsc, Or.inr ⟨hd, hr, by simp⟩⟩, ?_⟩
        simp [first_match_steps_left, hws, hpc, hd]
    · rw [h1, hset]
      rcases hcase with ⟨hd, hr, hle, _⟩ | ⟨hd, _, _⟩
      · refine ⟨⟨hcanc, _, rfl, hto, hsc, Or.inl ⟨hd, hr, hle, by simp⟩⟩, ?_⟩
        simp [first_match_steps_left, hws, hpc, hd]
      · rw [hd] at hdf; exact absurd hdf (by decide)
    · rw [h1, hset]
      rcases hcase with ⟨hd, hr, hle, _⟩ | ⟨_, _, hnb⟩
      · have hne : w.nonce ≠ m := by
          intro heq
          rw [hdig, heq, hmatch] at hnm
          exact absurd hnm (by decide)
        have hnext : (w.nonce + 1) % 2 ^ 32 = w.nonce + 1 := Nat.mod_eq_of_lt (by omega)
        refine ⟨⟨hcanc, _, rfl, hto, ?_, Or.inl ⟨hd, hr, ?_, by simp⟩⟩, ?_⟩
        · intro n hn
          rcases List.mem_cons.mp hn with rfl | hn
          · exact hle
          · exact hsc n hn
        · simp only [hnext]; omega
        · simp only [first_match_steps_left, hws, hpc, hd, hnext]
          simp
          omega
      · exact absurd hpc hnb
    · rw [h1, hset]
      rcases hcase with ⟨hd, hr, hle, _⟩ | ⟨_, _, hnb⟩
      · have heq : w.nonce = m := by
          by_contra hne
          have := hleast w.nonce (by omega)
          rw [hdig, this] at hmt
          exact absurd hmt (by decide)
        refine ⟨⟨hcanc, _, rfl, hto, ?_, Or.inr ⟨rfl, ?_, by simp⟩⟩, ?_⟩
        · intro n hn
          rcases List.mem_cons.mp hn with rfl | hn
          · exact hle
          · exact hsc n hn
        · simp only [g_strdup_snprintf_32, heq]
        · simp only [first_match_steps_left, hws, hpc, heq]
          simp
      · exact absurd hpc hnb

theorem first_match_step {σ : Type} (E : Search σ)
    (hreseed : ∀ (mt64 : σ) (seed : Nat), E.M.set_seed mt64 seed = E.M.set_seed E.M.init seed)
    (m : Nat) (hm : m < 2 ^ 32 - 1)
    (hmatch : prefix_matches E.target (pipeline_digest2 E.H E.M E.challenge_type
      E.last_solution_hash E.parameters (fmt_unsigned 32 m)) = true)
    (hleast : ∀ n, n < m → prefix_matches E.target (pipeline_digest2 E.H E.M
      E.challenge_type E.last_solution_hash E.parameters (fmt_unsigned 32 n)) = false)
    (s : SearchState σ) (e : Event) (he : e ≠ Event.cancel)
    (h : first_match_invariant m s) :
    first_match_invariant m (search_step E s e) := by
  cases e with
  | cancel => exact absurd rfl he
  | tick t =>
    cases t with
    | zero => exact (first_match_tick E hreseed m hm hmatch hleast s h).1
    | succ t =>
      have hkeep := h
      obtain ⟨_, w, hws, _⟩ := h
      rcases search_step_tick E s (t + 1) with ⟨_, h0⟩ | ⟨w0, hw1, _⟩
      · rw [h0]; exact hkeep
      · rw [hws] at hw1
        simp at hw1

theorem first_match_run {σ : Type} (E : Search σ)
    (hreseed : ∀ (mt64 : σ) (seed : Nat), E.M.set_seed mt64 seed = E.M.set_seed E.M.init seed)
    (m : Nat) (hm : m < 2 ^ 32 - 1)
    (hmatch : prefix_matches E.target (pipeline_digest2 E.H E.M E.challenge_type
      E.last_solution_hash E.parameters (fmt_unsigned 32 m)) = true)
    (hleast : ∀ n, n < m → prefix_matches E.target (pipeline_digest2 E.H E.M
      E.challenge_type E.last_solution_hash E.parameters (fmt_unsigned 32 n)) = false) :
    ∀ (sched : List Event) (s : SearchState σ), Event.cancel ∉ sched →
      first_match_invariant m s → first_match_invariant m (search_run E s sched) := by
  intro sched
  induction sched with
  | nil => intro s _ h; exact h
  | cons e rest ih =>
    intro s hn h
    rw [search_run_cons]
    apply ih _ (fun hmem => hn (List.mem_cons_of_mem _ hmem))
    apply first_match_step E hreseed m hm hmatch hleast s e _ h
    intro he
    rw [he] at hn
    simp at hn

theorem first_match_run_ticks {σ : Type} (E : Search σ)
    (hreseed : ∀ (mt64 : σ) (seed : Nat), E.M.set_seed mt64 seed = E.M.set_seed E.M.init seed)
    (m : Nat) (hm : m < 2 ^ 32 - 1)
    (hmatch : prefix_matches E.target (pipeline_digest2 E.H E.M E.challenge_type
      E.last_solution_hash E.parameters (fmt_unsigned 32 m)) = true)
    (hleast : ∀ n, n < m → prefix_matches E.target (pipeline_digest2 E.H E.M
      E.challenge_type E.last_solution_hash E.parameters (fmt_unsigned 32 n)) = false) :
    ∀ (k : Nat) (s : SearchState σ), first_match_invariant m s →
      first_match_steps_left m (search_run E s (List.replicate k (Event.tick 0)))
        = first_match_steps_left m s - k := by
  intro k
  induction k with
  | zero => intro s _; rfl
  | succ k ih =>
    intro s h
    obtain ⟨hinv, hstep⟩ := first_match_tick E hreseed m hm hmatch hleast s h
    rw [List.replicate_succ, search_run_cons, ih _ hinv, hstep]
    omega

theorem search_init_first_match {σ : Type} (M : CSCoinMT64Ops σ) (m : Nat) :
    first_match_invariant m (search_init M 1 false)
      ∧ first_match_steps_left m (search_init M 1 false) = 2 * m + 3 := by
  have h0 : nonce_from 1 0 = 0 := by decide
  have h1 : nonce_to 1 0 = 2 ^ 32 - 1 := by decide
  refine ⟨⟨rfl, worker_init M 1 0, rfl, h1, by simp [search_init],
    Or.inl ⟨rfl, rfl, ?_, by simp [worker_init]⟩⟩, ?_⟩
  · show nonce_from 1 0 ≤ m
    rw [h0]; exact Nat.zero_le m
  · show (match (worker_init M 1 0).pc with
      | PC.exited => 0
      | PC.loop_head =>
        if (search_init M 1 false).done then 1
        else 2 * (m - (worker_init M 1 0).nonce) + 3
      | PC.loop_body => 2 * (m - (worker_init M 1 0).nonce) + 2) = 2 * m + 3
    show (if false = true then 1 else 2 * (m - nonce_from 1 0) + 3) = 2 * m + 3
    rw [h0]
    simp

theorem first_match_result {σ : Type} (m : Nat) (s : SearchState σ)
    (h : first_match_invariant m s)
    (hex : s.workers.all (fun w => w.pc == PC.exited) = true) :
    solve_return s = { ret := some (fmt_unsigned 32 m), error := none } := by
  obtain ⟨hcanc, w, hws, _, _, hcase⟩ := h
  rw [hws] at hex
  simp only [List.all_cons, List.all_nil, Bool.and_true, beq_iff_eq] at hex
  rcases hcase with ⟨_, _, _, hne⟩ | ⟨_, hr, _⟩
  · exact absurd hex hne
  · unfold solve_return
    rw [hcanc, hr]
    rfl

theorem first_match_exited_of_zero {σ : Type} (m : Nat) (s : SearchState σ)
    (h : first_match_invariant m s) (h0 : first_match_steps_left m s = 0) :
    s.workers.all (fun w => w.pc == PC.exited) = true := by
  obtain ⟨_, w, hws, _, _, _⟩ := h
  rw [hws]
  simp only [List.all_cons, List.all_nil, Bool.and_true, beq_iff_eq]
  simp only [first_match_steps_left, hws] at h0
  cases hpc : w.pc with
  | exited => rfl
  | loop_head =>
    rw [hpc] at h0
    simp only at h0
    split_ifs at h0
  | loop_body =>
    rw [hpc] at h0
    simp at h0

/-- C16: one thread, a handle that is never cancelled, a generator whose
reseeding forgets the previous state, and `m` below `2 ^ 32 - 1` the least
nonce whose second digest matches the target (any challenge kind, the list
kinds among them). Then under every schedule no nonce above `m` is ever hashed
and, whenever the call returns, it returns the `%u` text of `m`, which is the
shortest decimal text of `m`; and it does return, after `2 * m + 3` steps of
the thread. -/
theorem first_match_wins {σ : Type} (H : List Nat → List Nat) (M : CSCoinMT64Ops σ)
    (hreseed : ∀ (mt64 : σ) (seed : Nat), M.set_seed mt64 seed = M.set_seed M.init seed)
    (challenge_id : Int) (challenge_type : CSCoinChallengeType)
    (last_solution_hash : List Nat) ( hash_prefix : List Nat)
    (parameters : CSCoinChallengeParameters) (m : Nat) (hm : m < 2 ^ 32 - 1)
    (hmatch : prefix_matches (hash_prefix_num hash_prefix)
      (pipeline_digest2 H M challenge_type last_solution_hash parameters
        (fmt_unsigned 32 m)) = true)
    (hleast : ∀ n, n < m → prefix_matches (hash_prefix_num hash_prefix)
      (pipeline_digest2 H M challenge_type last_solution_hash parameters
        (fmt_unsigned 32 n)) = false) :
    (∀ sched, Event.cancel ∉ sched →
        (∀ n ∈ (solve_state H M 1 challenge_type last_solution_hash hash_prefix parameters
            false sched).scanned, n ≤ m)
          ∧ ∀ r, cscoin_solve_challenge H M 1 challenge_id challenge_type
              last_solution_hash hash_prefix parameters false sched = some r →
            r = { ret := some (fmt_unsigned 32 m), error := none })
      ∧ ShortestDecimal m (fmt_unsigned 32 m)
      ∧ cscoin_solve_challenge H M 1 challenge_id challenge_type last_solution_hash
          hash_prefix parameters false (List.replicate (2 * m + 3) (Event.tick 0))
          = some { ret := some (fmt_unsigned 32 m), error := none } := by
  have hinit := search_init_first_match M m
  refine ⟨?_, fmt_unsigned_32_shortest m (by omega), ?_⟩
  · intro sched hnc
    have hinv : first_match_invariant m (solve_state H M 1 challenge_type
        last_solution_hash hash_prefix parameters false sched) := first_match_run
      (solve_search H M challenge_type last_solution_hash hash_prefix parameters)
      hreseed m hm hmatch hleast sched (search_init M 1 false) hnc hinit.1
    refine ⟨?_, ?_⟩
    · obtain ⟨_, w, _, _, hsc, _⟩ := hinv
      exact hsc
    · intro r hr
      unfold cscoin_solve_challenge at hr
      split_ifs at hr with hall
      rw [first_match_result m _ hinv hall] at hr
      injection hr with hr
      exact hr.symm
  · have hnc : Event.cancel ∉ List.replicate (2 * m + 3) (Event.tick 0) := by simp
    have hinv : first_match_invariant m (solve_state H M 1 challenge_type
        last_solution_hash hash_prefix parameters false
        (List.replicate (2 * m + 3) (Event.tick 0))) := first_match_run
      (solve_search H M challenge_type last_solution_hash hash_prefix parameters)
      hreseed m hm hmatch hleast _ (search_init M 1 false) hnc hinit.1
    have hleft : first_match_steps_left m (solve_state H M 1 challenge_type
        last_solution_hash hash_prefix parameters false
        (List.replicate (2 * m + 3) (Event.tick 0)))
        = first_match_steps_left m (search_init M 1 false) - (2 * m + 3) :=
      first_match_run_ticks
        (solve_search H M challenge_type last_solution_hash hash_prefix parameters)
        hreseed m hm hmatch hleast (2 * m + 3) (search_init M 1 false) hinit.1
    rw [hinit.2, Nat.sub_self] at hleft
    have hall := first_match_exited_of_zero m _ hinv hleft
    unfold cscoin_solve_challenge
    rw [if_pos hall, first_match_result m _ hinv hall]

set_option maxRecDepth 100000 in
/-- Witness for C16: SHA-256, the stand-in generator, a sorted list of three
elements and the prefix "9433": nonce 0 does not match, nonce 1 does, and "1"
is returned after five steps. -/
theorem first_match_wins_witness :
    (1 < 2 ^ 32 - 1
        ∧ prefix_matches (hash_prefix_num (cstr "9433"))
            (pipeline_digest2 sha256 lcg64 CSCoinChallengeType.SORTED_LIST zero_hash
              three_elements (fmt_unsigned 32 1)) = true
        ∧ ∀ n, n < 1 → prefix_matches (hash_prefix_num (cstr "9433"))
            (pipeline_digest2 sha256 lcg64 CSCoinChallengeType.SORTED_LIST zero_hash
              three_elements (fmt_unsigned 32 n)) = false)
      ∧ cscoin_solve_challenge sha256 lcg64 1 0 CSCoinChallengeType.SORTED_LIST zero_hash
          (cstr "9433") three_elements false (List.replicate (2 * 1 + 3) (Event.tick 0))
          = some { ret := some (fmt_unsigned 32 1), error := none } :=
  have hmatch : prefix_matches (hash_prefix_num (cstr "9433"))
      (pipeline_digest2 sha256 lcg64 CSCoinChallengeType.SORTED_LIST zero_hash
        three_elements (fmt_unsigned 32 1)) = true := by decide
  have hleast : ∀ n, n < 1 → prefix_matches (hash_prefix_num (cstr "9433"))
      (pipeline_digest2 sha256 lcg64 CSCoinChallengeType.SORTED_LIST zero_hash
        three_elements (fmt_unsigned 32 n)) = false := by decide
  ⟨⟨by norm_num, hmatch, hleast⟩,
    (first_match_wins sha256 lcg64 (fun _ _ => rfl) 0 CSCoinChallengeType.SORTED_LIST
      zero_hash (cstr "9433") three_elements 1 (by norm_num) hmatch hleast).2.2⟩

end CSCoin
